import Mathlib

/-!
# Image-Filters: a 3x3 Laplacian convolution, serial and row-partitioned

Shallow embedding of `src/serial.c` and `src/pthreads/temaPthreads.c`.

Conventions of the embedding.

* `unsigned long` is the 64-bit unsigned type of an LP64 platform: a natural number reduced
  modulo `2 ^ 64` after every operation.  `int` is 32-bit two's complement.  A conversion of an
  `unsigned long` to `int` wraps modulo `2 ^ 32` (the behaviour of gcc and clang); a signed
  overflow, a division by zero, a floating conversion whose value does not fit and an array
  access outside the buffer are undefined behaviour and make the embedded function return
  `none`.
* `double` accumulators are rationals.  Every value that the filter accumulates is an integer of
  magnitude at most `9 * 8 * 255`, which binary64 represents exactly, so the floating-point
  operations of the source coincide with exact arithmetic.
* The two pixel buffers a filter pass works on (the source `image`, the destination `result`)
  form the memory state `Mem`; they are distinct blocks, as `apply_filters` allocates `result`
  itself.  The block returned by `malloc` has indeterminate contents: it is the argument `fresh`.
* The worker threads of the parallel engine are run one after another, in creation order.
* A file is the list of its bytes and a stream is the list of the bytes not yet read.  Opening
  a file, allocating a block and writing to the output file are taken to succeed.
-/

namespace ImageFilters

/-! ## Machine arithmetic -/

/-- An `unsigned char`. -/
abbrev UChar := Fin 256

/-- Addition of two `unsigned long` values. -/
def uadd (a b : Nat) : Nat := (a + b) % 2 ^ 64

/-- Subtraction of two `unsigned long` values. -/
def usub (a b : Nat) : Nat := (a + (2 ^ 64 - b % 2 ^ 64)) % 2 ^ 64

/-- Multiplication of two `unsigned long` values. -/
def umul (a b : Nat) : Nat := (a * b) % 2 ^ 64

/-- Remainder of two `unsigned long` values; undefined for a zero divisor. -/
def umod (a b : Nat) : Option Nat := if b = 0 then none else some (a % b)

/-- Quotient of two `unsigned long` values; undefined for a zero divisor. -/
def udiv (a b : Nat) : Option Nat := if b = 0 then none else some (a / b)

/-- Conversion of an `unsigned long` value to `int`. -/
def toInt (n : Nat) : Int :=
  if n % 2 ^ 32 < 2 ^ 31 then ((n % 2 ^ 32 : Nat) : Int) else ((n % 2 ^ 32 : Nat) : Int) - 2 ^ 32

/-- Conversion of an `int` value to `unsigned long`. -/
def ofInt (z : Int) : Nat := (z % 2 ^ 64).toNat

/-- Multiplication of two `int` values; undefined on overflow. -/
def imul (a b : Int) : Option Int :=
  if -2 ^ 31 ≤ a * b ∧ a * b < 2 ^ 31 then some (a * b) else none

/-- Truncation toward zero, the rounding of a floating-to-integer conversion. -/
def truncate (v : ℚ) : Int := if 0 ≤ v then ⌊v⌋ else ⌈v⌉

/-- Conversion `(int)(v)` of a `double`; undefined when the truncated value is no `int`. -/
def doubleToInt (v : ℚ) : Option Int :=
  if -2 ^ 31 ≤ truncate v ∧ truncate v < 2 ^ 31 then some (truncate v) else none

/-- Conversion of a `double` to `unsigned char` on assignment; undefined when the truncated
value is no `unsigned char`. -/
def doubleToUChar (v : ℚ) : Option UChar :=
  if 0 ≤ truncate v ∧ truncate v < 256 then some (Fin.ofNat (truncate v).toNat) else none

/-- The loop `for (i = lo; count iterations; i++) body`, as a recursion on the number of
iterations left. -/
def forLoopN {σ : Type} (body : Nat → σ → Option σ) : Nat → Nat → σ → Option σ
  | _, 0, s => some s
  | i, n + 1, s => (body i s).bind (forLoopN body (i + 1) n)

/-- The loop `for (i = lo; i < hi; i++) body`, where the body changes neither `i` nor `hi`. -/
def forLoop {σ : Type} (lo hi : Nat) (body : Nat → σ → Option σ) (s : σ) : Option σ :=
  forLoopN body lo (hi - lo) s

/-! ## Data model -/

/-- A pixel: `typedef struct { unsigned char r, g, b; } PPMPixel;`. -/
structure PPMPixel where
  r : UChar
  g : UChar
  b : UChar
deriving DecidableEq, Repr

/-- The buffers of one filter pass. -/
structure Mem where
  image : List PPMPixel
  result : List PPMPixel
deriving DecidableEq

def filterWidth : Nat := 3

def filterHeight : Nat := 3

def RGB_COMPONENT_COLOR : Nat := 255

def laplacian_factor : ℚ := 1

/-- The kernel `double laplacian[filterHeight][filterWidth]`, row by row. -/
def laplacianRows : List (List ℚ) :=
  [[-1, -1, -1],
   [-1,  8, -1],
   [-1, -1, -1]]

/-- The entry `laplacian[filterY][filterX]`. -/
def laplacian (filterY filterX : Nat) : ℚ := (laplacianRows.getD filterY []).getD filterX 0

/-! ## The per-pixel body shared by both engines -/

/-- The three accumulators `red`, `green`, `blue`. -/
structure Acc where
  red : ℚ
  green : ℚ
  blue : ℚ

/-- The value of `int imageX = (x - filterWidth / 2 + filterX + w) % w;`, likewise `imageY`. -/
def imageCoord (x filterSize filterX w : Nat) : Option Int :=
  (umod (uadd (uadd (usub x (filterSize / 2)) filterX) w) w).map toInt

/-- The index `imageY * w + imageX`, computed in `unsigned long`. -/
def imageIndex (imageX imageY : Int) (w : Nat) : Nat :=
  uadd (umul (ofInt imageY) w) (ofInt imageX)

/-- The body of the two kernel loops: one source pixel is read (the source reads the same
element three times, once per channel) and added, weighted, to the accumulators. -/
def filterStep (m : Mem) (w h x y filterY filterX : Nat) (a : Acc) : Option Acc := do
  let imageX ← imageCoord x filterWidth filterX w
  let imageY ← imageCoord y filterHeight filterY h
  let px ← m.image[imageIndex imageX imageY w]?
  some { red := a.red + ((px.r.val : Int) : ℚ) * laplacian filterY filterX
         green := a.green + ((px.g.val : Int) : ℚ) * laplacian filterY filterX
         blue := a.blue + ((px.b.val : Int) : ℚ) * laplacian filterY filterX }

/-- The loops over `filterY` and `filterX`, started from `red = green = blue = 0.0`. -/
def accumulate (m : Mem) (w h x y : Nat) : Option Acc :=
  forLoop 0 filterHeight
    (fun filterY => forLoop 0 filterWidth (fun filterX => filterStep m w h x y filterY filterX))
    { red := 0, green := 0, blue := 0 }

/-- The byte chosen by `if ((int)(v) < 0) 0 else if ((int)(v) > 255) 255 else v`. -/
def clampChannel (v : ℚ) : Option UChar := do
  let i ← doubleToInt v
  if i < 0 then some 0
  else if i > 255 then some 255
  else doubleToUChar v

/-- The assignment `result[idx].r = c`. -/
def storeR (idx : Nat) (c : UChar) (m : Mem) : Option Mem :=
  (m.result[idx]?).map fun px => { m with result := m.result.set idx { px with r := c } }

/-- The assignment `result[idx].g = c`. -/
def storeG (idx : Nat) (c : UChar) (m : Mem) : Option Mem :=
  (m.result[idx]?).map fun px => { m with result := m.result.set idx { px with g := c } }

/-- The assignment `result[idx].b = c`. -/
def storeB (idx : Nat) (c : UChar) (m : Mem) : Option Mem :=
  (m.result[idx]?).map fun px => { m with result := m.result.set idx { px with b := c } }

/-- The body of the loops over `x` and `y`: accumulate, scale, clamp and store each channel at
`result[y * w + x]`. -/
def pixelBody (w h x y : Nat) (m : Mem) : Option Mem := do
  let a ← accumulate m w h x y
  let red ← clampChannel (laplacian_factor * a.red)
  let m ← storeR (uadd (umul y w) x) red m
  let green ← clampChannel (laplacian_factor * a.green)
  let m ← storeG (uadd (umul y w) x) green m
  let blue ← clampChannel (laplacian_factor * a.blue)
  storeB (uadd (umul y w) x) blue m

/-! ## The serial engine (`src/serial.c`) -/

namespace Serial

/-- The function `apply_filters` of `serial.c`: `fresh` is the block returned by `malloc`. -/
def apply_filters (image : List PPMPixel) (w h : Nat) (fresh : List PPMPixel) :
    Option (List PPMPixel) :=
  (forLoop 0 w (fun x => forLoop 0 h (fun y => pixelBody w h x y))
    { image := image, result := fresh }).map Mem.result

end Serial

/-! ## The parallel engine (`src/pthreads/temaPthreads.c`) -/

namespace Pthreads

/-- The numeric fields of `struct parameter`; its two pointers designate the buffers of `Mem`. -/
structure parameter where
  w : Nat
  h : Nat
  start : Nat
  size : Nat
deriving DecidableEq, Repr

/-- The thread body `function`. -/
def function (p : parameter) (m : Mem) : Option Mem :=
  forLoop 0 p.w
    (fun x => forLoop p.start (uadd p.start p.size) (fun y => pixelBody p.w p.h x y)) m

/-- The value of `work = h / THREADS;`, an `int`. -/
def workOf (THREADS h : Nat) : Option Int := (udiv h THREADS).map toInt

/-- The fields that iteration `i` of the creation loop stores in `p[i]`. -/
def mkParameter (THREADS : Nat) (w h : Nat) (work : Int) (i : Nat) : Option parameter := do
  let start ← (imul (i : Int) work).map ofInt
  let size := if (i : Int) = (THREADS : Int) - 1 then usub h start else ofInt work
  some { w := w, h := h, start := start, size := size }

/-- The function `apply_filters` of `temaPthreads.c` for a worker count `THREADS`: each
iteration fills `p[i]` and starts the worker, which runs to completion. -/
def apply_filters (THREADS : Nat) (image : List PPMPixel) (w h : Nat) (fresh : List PPMPixel) :
    Option (List PPMPixel) := do
  let work ← workOf THREADS h
  let m ← forLoop 0 THREADS
    (fun i m => do
      let p ← mkParameter THREADS w h work i
      function p m)
    { image := image, result := fresh }
  some m.result

end Pthreads

/-! ## The bitmap reader and writer (`readImage`, `writeImage`) -/

/-- How a run of the reader or writer ends when it returns no image. -/
inductive Failure where
  /-- A diagnostic on the error stream, then `exit(1)`. -/
  | fatal
  /-- A loop waiting for a newline after the end of the file: it never ends. -/
  | hang
  /-- Undefined behaviour. -/
  | undefined
deriving DecidableEq, Repr

/-- The result of `readImage`: the returned block and the two out-parameters. -/
structure Loaded where
  width : Nat
  height : Nat
  pixels : List PPMPixel
deriving DecidableEq, Repr

/-- The bytes of a block of pixels: `sizeof(PPMPixel)` is 3, the channels in declaration
order. -/
def pixelBytes : List PPMPixel → List UChar
  | [] => []
  | p :: ps => p.r :: p.g :: p.b :: pixelBytes ps

/-- The pixels stored in a block of bytes. -/
def bytesPixels : List UChar → List PPMPixel
  | r :: g :: b :: s => { r := r, g := g, b := b } :: bytesPixels s
  | _ => []

/-- The decimal digits printed by a `%lu` or non-negative `%d` conversion. -/
def printDecimal (n : Nat) : List UChar :=
  if n = 0 then [48] else (Nat.digits 10 n).reverse.map fun d => Fin.ofNat (48 + d)

/-- The header written by `fprintf(fp, "%s\n%lu %lu\n%d\n", "P6", width, height, 255)`. -/
def header (width height : Nat) : List UChar :=
  [80, 54] ++ [10] ++ printDecimal width ++ [32] ++ printDecimal height ++ [10]
    ++ printDecimal RGB_COMPONENT_COLOR ++ [10]

/-- The function `writeImage`, as the bytes written to the file: the header, then `height`
items of `3 * width` bytes taken from the block `image`.  Reading past the end of the block
is undefined. -/
def writeImage (image : List PPMPixel) (width height : Nat) : Except Failure (List UChar) :=
  if (pixelBytes image).length < umul 3 width * height then .error .undefined
  else .ok (header width height ++ (pixelBytes image).take (umul 3 width * height))

/-- The call `fgets(buff, n + 1, fp)`: at most `n` bytes, up to and including a newline; the
bytes stored and the rest of the stream. -/
def fgets : Nat → List UChar → List UChar × List UChar
  | 0, s => ([], s)
  | _ + 1, [] => ([], [])
  | n + 1, c :: s =>
    if c = 10 then ([c], s) else ((fgets n s).1.cons c, (fgets n s).2)

/-- The comment loop `c = getc(fp); while (c == '#') { while (getc(fp) != '\n'); c = getc(fp); }
ungetc(c, fp);`.  The flag tells whether the inner loop is running. -/
def skipComments : Bool → List UChar → Except Failure (List UChar)
  | true, [] => .error .hang
  | true, c :: s => if c = 10 then skipComments false s else skipComments true s
  | false, [] => .ok []
  | false, c :: s => if c = 35 then skipComments true s else .ok (c :: s)

/-- The character class `isspace`. -/
def isSpace (c : UChar) : Bool := c.val = 32 || (9 ≤ c.val && c.val ≤ 13)

/-- The character class `isdigit`. -/
def isDigit (c : UChar) : Bool := 48 ≤ c.val && c.val ≤ 57

/-- White space skipped by a conversion or by a space of the format. -/
def skipSpace : List UChar → List UChar
  | [] => []
  | c :: s => if isSpace c then skipSpace s else c :: s

/-- The longest run of digits: its value on top of `acc`, its length on top of `k`, the rest. -/
def scanDigits : List UChar → Nat → Nat → Nat × Nat × List UChar
  | [], acc, k => (acc, k, [])
  | c :: s, acc, k =>
    if isDigit c then scanDigits s (acc * 10 + (c.val - 48)) (k + 1) else (acc, k, c :: s)

/-- An optional sign. -/
def scanSign : List UChar → Bool × List UChar
  | [] => (false, [])
  | c :: s => if c = 45 then (true, s) else if c = 43 then (false, s) else (false, c :: s)

/-- The subject of a decimal conversion: white space, an optional sign, digits.  No digit is a
matching failure. -/
def scanNumber (s : List UChar) : Option (Bool × Nat) × List UChar :=
  let signed := scanSign (skipSpace s)
  let digits := scanDigits signed.2 0 0
  if digits.2.1 = 0 then (none, digits.2.2) else (some (signed.1, digits.1), digits.2.2)

/-- The conversion `%lu`: a value that `unsigned long` cannot hold is undefined, a minus sign
negates in `unsigned long`. -/
def scanULong (s : List UChar) : Except Failure (Option Nat × List UChar) :=
  match scanNumber s with
  | (none, rest) => .ok (none, rest)
  | (some (neg, v), rest) =>
    if 2 ^ 64 ≤ v then .error .undefined
    else .ok (some (if neg then (2 ^ 64 - v) % 2 ^ 64 else v), rest)

/-- The conversion `%d`: a value that `int` cannot hold is undefined. -/
def scanInt (s : List UChar) : Except Failure (Option Int × List UChar) :=
  match scanNumber s with
  | (none, rest) => .ok (none, rest)
  | (some (neg, v), rest) =>
    if neg then (if 2 ^ 31 < v then .error .undefined else .ok (some (-(v : Int)), rest))
    else (if 2 ^ 31 ≤ v then .error .undefined else .ok (some (v : Int), rest))

/-- The loop `while (fgetc(fp) != '\n');`. -/
def skipLine : List UChar → Except Failure (List UChar)
  | [] => .error .hang
  | c :: s => if c = 10 then .ok s else skipLine s

/-- The call `fread(img, size, count, fp)`: the number of complete items read and the bytes
stored. -/
def fread (size count : Nat) (s : List UChar) : Nat × List UChar :=
  if size = 0 ∨ count = 0 then (0, [])
  else (min count (s.length / size), s.take (size * count))

/-- The function `readImage` on the contents of an opened file. -/
def readImage (file : List UChar) : Except Failure Loaded := do
  let line := fgets 15 file
  if line.1 = [] then throw .fatal
  if (line.1 ++ [0]).getD 0 0 ≠ (80 : UChar) ∨ (line.1 ++ [0]).getD 1 0 ≠ (54 : UChar) then
    throw .fatal
  let s ← skipComments false line.2
  let (width?, s) ← scanULong s
  let some width := width? | throw .fatal
  let (height?, s) ← scanULong (skipSpace s)
  let some height := height? | throw .fatal
  let (rgb?, s) ← scanInt s
  let some rgb_comp_color := rgb? | throw .fatal
  if rgb_comp_color ≠ (RGB_COMPONENT_COLOR : Int) then throw .fatal
  let s ← skipLine s
  let got := fread (umul 3 width) height s
  if got.1 ≠ height then throw .fatal
  if umul (umul width height) 3 ≠ got.2.length then throw .undefined
  return { width := width, height := height, pixels := bytesPixels got.2 }

/-! ## Specification-level definitions -/

/-- The coordinate `(c - 1 + d) mod n` with the mathematical, non-negative modulus. -/
def wrapCoord (c d n : Nat) : Nat := (((c : Int) - 1 + (d : Int)) % (n : Int)).toNat

/-- The kernel `K` of the specification. -/
def kernelK : List (List Int) :=
  [[-1, -1, -1],
   [-1,  8, -1],
   [-1, -1, -1]]

/-- The entry `K[fy][fx]` of the specification's kernel. -/
def K (fy fx : Nat) : Int := (kernelK.getD fy []).getD fx 0

/-- The pixel `(0,0,0)`. -/
def black : PPMPixel := { r := 0, g := 0, b := 0 }

/-- The source pixel `source[((y - 1 + fy) mod h) * w + ((x - 1 + fx) mod w)]` of the
specification. -/
def sourceAt (image : List PPMPixel) (w h x y fy fx : Nat) : PPMPixel :=
  image.getD (wrapCoord y fy h * w + wrapCoord x fx w) black

/-- The sum over `fy, fx` in `0..2` of one channel of the wrapped source pixel times
`K[fy][fx]`, in exact integer arithmetic. -/
def weightedSum (chan : PPMPixel → UChar) (image : List PPMPixel) (w h x y : Nat) : Int :=
  ((List.range 3).map fun fy =>
    ((List.range 3).map fun fx =>
      ((chan (sourceAt image w h x y fy fx)).val : Int) * K fy fx).sum).sum

/-- The clamp of the specification on integers: below 0 to 0, above 255 to 255, others
unchanged. -/
def clampInt (z : Int) : UChar :=
  if z < 0 then 0 else if z > 255 then 255 else Fin.ofNat z.toNat

/-- The destination pixel the specification prescribes at `(x, y)`. -/
def filteredPixel (image : List PPMPixel) (w h x y : Nat) : PPMPixel :=
  { r := clampInt (weightedSum PPMPixel.r image w h x y)
    g := clampInt (weightedSum PPMPixel.g image w h x y)
    b := clampInt (weightedSum PPMPixel.b image w h x y) }

/-- The dimensions both engines are specified for. -/
structure Dims (w h : Nat) : Prop where
  wpos : 0 < w
  hpos : 0 < h
  wlt : w < 2 ^ 31
  hlt : h < 2 ^ 31

/-- The state reached from destination contents `r0` once the pixels selected by `done` have
been filtered: the source is `img`, the selected pixels hold their filtered value and the
others are unchanged. -/
def Painted (img : List PPMPixel) (w h : Nat) (r0 : List PPMPixel) (done : Nat → Nat → Prop)
    (m : Mem) : Prop :=
  m.image = img ∧ m.result.length = r0.length ∧
    ∀ idx, idx < r0.length →
      (done (idx % w) (idx / w) →
        m.result[idx]? = some (filteredPixel img w h (idx % w) (idx / w))) ∧
      (¬ done (idx % w) (idx / w) → m.result[idx]? = r0[idx]?)

/-- The filtered image: every destination pixel holds its filtered value. -/
def filtered (image : List PPMPixel) (w h : Nat) : List PPMPixel :=
  (List.range (w * h)).map fun idx => filteredPixel image w h (idx % w) (idx / w)

/-- The clamp of the specification: compare the accumulated value first, then truncate. -/
def clampSpec (v : ℚ) : UChar :=
  if v < 0 then 0 else if v > 255 then 255 else Fin.ofNat (truncate v).toNat

/-- Row `y` belongs to the work range of `p`. -/
def owns (p : Pthreads.parameter) (y : Nat) : Prop := p.start ≤ y ∧ y < p.start + p.size

/-- The state `m'` differs from `m` at most in the destination pixels whose index satisfies
`S`: the source and the size of the destination are the same. -/
def Frame (S : Nat → Prop) (m m' : Mem) : Prop :=
  m'.image = m.image ∧ m'.result.length = m.result.length ∧
    ∀ idx, ¬ S idx → m'.result[idx]? = m.result[idx]?

/-- The destination indices of the rows `start .. start + size - 1` of an image of width `w`. -/
def inRows (w start size : Nat) (idx : Nat) : Prop :=
  ∃ y x, start ≤ y ∧ y < start + size ∧ x < w ∧ idx = y * w + x

/-- The 3x3 image of the concrete case: `(255,255,255)` at `(0,0)`, black elsewhere. -/
def cornerImage : List PPMPixel :=
  { r := 255, g := 255, b := 255 } :: List.replicate 8 { r := 0, g := 0, b := 0 }

/-- The character of a decimal digit. -/
def digitByte (d : Nat) : UChar := Fin.ofNat (48 + d)

/-- The digit string of a number, most significant digit first. -/
def decimalDigits (n : Nat) : List Nat := if n = 0 then [0] else (Nat.digits 10 n).reverse

/-! ## Further specification-level definitions -/

/-- A run of comment lines: each is `#`, a body without newline, and a newline. -/
def commentLines : List (List UChar) → List UChar
  | [] => []
  | c :: cs => 35 :: (c ++ 10 :: commentLines cs)

/-- The maximum value field of a header: an optional minus sign and the decimal digits of
`v`. -/
def maxField (neg : Bool) (v : Nat) : List UChar :=
  if neg then 45 :: printDecimal v else printDecimal v

/-- The integer a maximum value field denotes. -/
def maxValue (neg : Bool) (v : Nat) : Int := if neg then -(v : Int) else (v : Int)

/-- A separator of header fields: one or more white space characters. -/
def IsSeparator (sep : List UChar) : Prop := sep ≠ [] ∧ ∀ b ∈ sep, isSpace b = true

/-- A file whose header is well formed up to the maximum value field: the magic line, comment
lines, the two dimensions and the field, each followed by a separator; `rest` is what follows
the field. -/
def ppmFile (cs : List (List UChar)) (w h : Nat) (sep1 sep2 : List UChar) (neg : Bool) (v : Nat)
    (rest : List UChar) : List UChar :=
  [80, 54, 10] ++ (commentLines cs ++ (printDecimal w ++ (sep1 ++ (printDecimal h ++
    (sep2 ++ (maxField neg v ++ rest))))))

/-- The part of `readImage` after the two dimensions have been read. -/
def readBody (width height : Nat) (s : List UChar) : Except Failure Loaded := do
  let (rgb?, s) ← scanInt s
  let some rgb_comp_color := rgb? | throw .fatal
  if rgb_comp_color ≠ (RGB_COMPONENT_COLOR : Int) then throw .fatal
  let s ← skipLine s
  let got := fread (umul 3 width) height s
  if got.1 ≠ height then throw .fatal
  if umul (umul width height) 3 ≠ got.2.length then throw .undefined
  return { width := width, height := height, pixels := bytesPixels got.2 }

namespace Pthreads

/-- The parameter blocks `p[i], ..., p[i + n - 1]` filled by the creation loop. -/
def workersFrom (THREADS w h : Nat) (work : Int) : Nat → Nat → Option (List parameter)
  | _, 0 => some []
  | i, n + 1 =>
    (mkParameter THREADS w h work i).bind fun p =>
      (workersFrom THREADS w h work (i + 1) n).map fun ps => p :: ps

/-- The workers built by the parallel `apply_filters`: the array `p[0 .. THREADS - 1]`. -/
def workers (THREADS w h : Nat) : Option (List parameter) :=
  (workOf THREADS h).bind fun work => workersFrom THREADS w h work 0 THREADS

/-- The bodies of the given workers run one after another, in the order of the list. -/
def runWorkers : List parameter → Mem → Option Mem
  | [], m => some m
  | p :: ps, m => (function p m).bind (runWorkers ps)

end Pthreads

/-- The block of worker `i` for height `h` and `N` workers, in closed form. -/
def blockOf (N w h i : Nat) : Pthreads.parameter :=
  { w := w, h := h, start := i * (h / N), size := if i = N - 1 then h - i * (h / N) else h / N }

/-- The coordinate `(c + a) mod n` of a shifted image. -/
def shiftCoord (c : Nat) (a : Int) (n : Nat) : Nat := (((c : Int) + a) % (n : Int)).toNat

/-- The image shifted by `(a, b)` on the torus: its pixel `(x, y)` is the pixel
`((x + a) mod w, (y + b) mod h)` of `img`. -/
def shiftImage (img : List PPMPixel) (w h : Nat) (a b : Int) : List PPMPixel :=
  (List.range (w * h)).map fun idx =>
    img.getD (shiftCoord (idx / w) b h * w + shiftCoord (idx % w) a w) black

/-! ## Auxiliary lemmas -/

theorem rawCoord_eq (x fx w : Nat) (hw : w < 2 ^ 63) (hx : x < w) (hf : fx < 3) :
    uadd (uadd (usub x (3 / 2)) fx) w = x + fx + w - 1 := by
  unfold uadd usub
  omega

theorem wrapCoord_eq (x fx w : Nat) (hw : 0 < w) :
    wrapCoord x fx w = (x + fx + w - 1) % w := by
  unfold wrapCoord
  have h1 : ((x : Int) - 1 + (fx : Int)) % (w : Int) = (((x + fx + w - 1 : Nat) : Int)) % (w : Int) := by
    have : (((x + fx + w - 1 : Nat) : Int)) = ((x : Int) - 1 + (fx : Int)) + (w : Int) := by omega
    rw [this, Int.add_emod_self]
  rw [h1, ← Int.natCast_mod]
  exact Int.toNat_natCast _

theorem wrapCoord_lt (x fx w : Nat) (hw : 0 < w) : wrapCoord x fx w < w := by
  rw [wrapCoord_eq x fx w hw]
  exact Nat.mod_lt _ hw

theorem toInt_small (n : Nat) (h : n < 2 ^ 31) : toInt n = (n : Int) := by
  unfold toInt
  have : n % 2 ^ 32 = n := Nat.mod_eq_of_lt (by omega)
  rw [this, if_pos h]

theorem ofInt_natCast (n : Nat) (h : n < 2 ^ 64) : ofInt (n : Int) = n := by
  unfold ofInt
  omega

theorem imageCoord_eq (x fx w : Nat) (hw : 0 < w) (hw2 : w < 2 ^ 31) (hx : x < w) (hf : fx < 3) :
    imageCoord x 3 fx w = some ((wrapCoord x fx w : Nat) : Int) := by
  have hlt := wrapCoord_lt x fx w hw
  unfold imageCoord umod
  rw [if_neg (by omega), rawCoord_eq x fx w (by omega) hx hf, ← wrapCoord_eq x fx w hw]
  simp only [Option.map_some']
  rw [toInt_small _ (by omega)]

theorem imageIndex_eq (cx cy w h : Nat) (hw : w < 2 ^ 31) (hh : h < 2 ^ 31) (hx : cx < w)
    (hy : cy < h) : imageIndex (cx : Int) (cy : Int) w = cy * w + cx := by
  have h1 : cy * w < 2 ^ 31 * 2 ^ 31 := Nat.mul_lt_mul'' (by omega) hw
  unfold imageIndex
  rw [ofInt_natCast cx (by omega), ofInt_natCast cy (by omega)]
  unfold uadd umul
  omega

theorem index_lt (cx cy w h : Nat) (hx : cx < w) (hy : cy < h) : cy * w + cx < w * h := by
  have : (cy + 1) * w ≤ h * w := Nat.mul_le_mul_right w hy
  rw [Nat.mul_comm w h]
  rw [Nat.add_mul] at this
  omega

theorem filterStep_eq (m : Mem) (w h x y fy fx : Nat) (a : Acc) (d : Dims w h)
    (hlen : m.image.length = w * h) (hx : x < w) (hy : y < h) (hfy : fy < 3) (hfx : fx < 3) :
    filterStep m w h x y fy fx a =
      some { red := a.red + (((sourceAt m.image w h x y fy fx).r.val : Int) : ℚ) * laplacian fy fx
             green := a.green + (((sourceAt m.image w h x y fy fx).g.val : Int) : ℚ) * laplacian fy fx
             blue := a.blue + (((sourceAt m.image w h x y fy fx).b.val : Int) : ℚ) * laplacian fy fx } := by
  have hcx := wrapCoord_lt x fx w d.wpos
  have hcy := wrapCoord_lt y fy h d.hpos
  have hidx := index_lt _ _ w h hcx hcy
  unfold filterStep filterWidth filterHeight
  rw [imageCoord_eq x fx w d.wpos d.wlt hx hfx, imageCoord_eq y fy h d.hpos d.hlt hy hfy]
  simp only [Option.bind_eq_bind, Option.some_bind]
  rw [imageIndex_eq _ _ w h d.wlt d.hlt hcx hcy]
  have hget : m.image[wrapCoord y fy h * w + wrapCoord x fx w]? = some (sourceAt m.image w h x y fy fx) := by
    unfold sourceAt
    rw [List.getD_eq_getElem?_getD, List.getElem?_eq_getElem (by omega)]
    rfl
  rw [hget]
  rfl

theorem accumulate_eq (m : Mem) (w h x y : Nat) (d : Dims w h)
    (hlen : m.image.length = w * h) (hx : x < w) (hy : y < h) :
    accumulate m w h x y =
      some { red := ((weightedSum PPMPixel.r m.image w h x y : Int) : ℚ)
             green := ((weightedSum PPMPixel.g m.image w h x y : Int) : ℚ)
             blue := ((weightedSum PPMPixel.b m.image w h x y : Int) : ℚ) } := by
  unfold accumulate forLoop filterHeight filterWidth
  simp only [forLoopN, Nat.sub_zero, Nat.reduceAdd, Option.some_bind,
    filterStep_eq m w h x y _ _ _ d hlen hx hy (by decide : 0 < 3) (by decide : 0 < 3),
    filterStep_eq m w h x y _ _ _ d hlen hx hy (by decide : 0 < 3) (by decide : 1 < 3),
    filterStep_eq m w h x y _ _ _ d hlen hx hy (by decide : 0 < 3) (by decide : 2 < 3),
    filterStep_eq m w h x y _ _ _ d hlen hx hy (by decide : 1 < 3) (by decide : 0 < 3),
    filterStep_eq m w h x y _ _ _ d hlen hx hy (by decide : 1 < 3) (by decide : 1 < 3),
    filterStep_eq m w h x y _ _ _ d hlen hx hy (by decide : 1 < 3) (by decide : 2 < 3),
    filterStep_eq m w h x y _ _ _ d hlen hx hy (by decide : 2 < 3) (by decide : 0 < 3),
    filterStep_eq m w h x y _ _ _ d hlen hx hy (by decide : 2 < 3) (by decide : 1 < 3),
    filterStep_eq m w h x y _ _ _ d hlen hx hy (by decide : 2 < 3) (by decide : 2 < 3)]
  have hl : ∀ fy fx, fy < 3 → fx < 3 → laplacian fy fx = ((K fy fx : Int) : ℚ) := by
    intro fy fx h1 h2
    interval_cases fy <;> interval_cases fx <;> simp [laplacian, laplacianRows, K, kernelK]
  simp only [hl _ _ (by decide : 0 < 3) (by decide : 0 < 3),
    hl _ _ (by decide : 0 < 3) (by decide : 1 < 3), hl _ _ (by decide : 0 < 3) (by decide : 2 < 3),
    hl _ _ (by decide : 1 < 3) (by decide : 0 < 3),
    hl _ _ (by decide : 1 < 3) (by decide : 1 < 3), hl _ _ (by decide : 1 < 3) (by decide : 2 < 3),
    hl _ _ (by decide : 2 < 3) (by decide : 0 < 3),
    hl _ _ (by decide : 2 < 3) (by decide : 1 < 3), hl _ _ (by decide : 2 < 3) (by decide : 2 < 3)]
  have hr : List.range 3 = [0, 1, 2] := by decide
  simp only [weightedSum, hr, List.map_cons, List.map_nil, List.sum_cons, List.sum_nil]
  congr 2 <;> (push_cast; ring)

theorem truncate_intCast (z : Int) : truncate (z : ℚ) = z := by
  unfold truncate
  split <;> simp

theorem clampChannel_intCast (z : Int) (h1 : -2 ^ 31 ≤ z) (h2 : z < 2 ^ 31) :
    clampChannel (laplacian_factor * (z : ℚ)) = some (clampInt z) := by
  unfold clampChannel doubleToInt doubleToUChar clampInt laplacian_factor
  rw [one_mul, truncate_intCast, if_pos ⟨h1, h2⟩]
  simp only [Option.bind_eq_bind, Option.some_bind]
  by_cases hz : z < 0
  · rw [if_pos hz, if_pos hz]
  · rw [if_neg hz, if_neg hz]
    by_cases hz2 : z > 255
    · rw [if_pos hz2, if_pos hz2]
    · rw [if_neg hz2, if_neg hz2, if_pos (by omega)]

theorem weightedSum_bound (chan : PPMPixel → UChar) (image : List PPMPixel) (w h x y : Nat) :
    -2 ^ 31 ≤ weightedSum chan image w h x y ∧ weightedSum chan image w h x y < 2 ^ 31 := by
  have hr : List.range 3 = [0, 1, 2] := by decide
  have hb : ∀ fy fx, ((chan (sourceAt image w h x y fy fx)).val : Int) < 256 := by
    intro fy fx
    exact_mod_cast (chan (sourceAt image w h x y fy fx)).isLt
  have h00 := hb 0 0
  have h01 := hb 0 1
  have h02 := hb 0 2
  have h10 := hb 1 0
  have h11 := hb 1 1
  have h12 := hb 1 2
  have h20 := hb 2 0
  have h21 := hb 2 1
  have h22 := hb 2 2
  simp only [weightedSum, hr, List.map_cons, List.map_nil, List.sum_cons, List.sum_nil, K,
    kernelK, List.getD_cons_zero, List.getD_cons_succ]
  omega

theorem stores_eq (idx : Nat) (r g b : UChar) (m : Mem) (h : idx < m.result.length) :
    ((storeR idx r m).bind fun m1 => (storeG idx g m1).bind fun m2 => storeB idx b m2) =
      some { m with result := m.result.set idx { r := r, g := g, b := b } } := by
  have h1 : ∀ (l : List PPMPixel) (p : PPMPixel), idx < l.length → (l.set idx p)[idx]? = some p := by
    intro l p hl
    rw [List.getElem?_set, if_pos rfl, if_pos hl]
  unfold storeR storeG storeB
  rw [List.getElem?_eq_getElem h]
  simp only [Option.map_some', Option.some_bind]
  rw [h1 _ _ h]
  simp only [Option.map_some', Option.some_bind]
  rw [h1 _ _ (by rw [List.length_set]; exact h)]
  simp only [Option.map_some', List.set_set]

theorem pixelBody_eq (w h x y : Nat) (m : Mem) (d : Dims w h) (hi : m.image.length = w * h)
    (hr : m.result.length = w * h) (hx : x < w) (hy : y < h) :
    pixelBody w h x y m =
      some { m with result := m.result.set (y * w + x) (filteredPixel m.image w h x y) } := by
  have hidx := index_lt x y w h hx hy
  have hw : uadd (umul y w) x = y * w + x := by
    have h1 : y * w < 2 ^ 31 * 2 ^ 31 := Nat.mul_lt_mul'' (hy.trans d.hlt) d.wlt
    have h2 := d.wlt
    unfold uadd umul
    omega
  unfold pixelBody
  rw [accumulate_eq m w h x y d hi hx hy, hw]
  simp only [Option.bind_eq_bind, Option.some_bind]
  rw [clampChannel_intCast _ (weightedSum_bound _ _ _ _ _ _).1 (weightedSum_bound _ _ _ _ _ _).2,
    clampChannel_intCast _ (weightedSum_bound _ _ _ _ _ _).1 (weightedSum_bound _ _ _ _ _ _).2,
    clampChannel_intCast _ (weightedSum_bound _ _ _ _ _ _).1 (weightedSum_bound _ _ _ _ _ _).2]
  simp only [Option.some_bind]
  have hs := stores_eq (y * w + x) (clampInt (weightedSum PPMPixel.r m.image w h x y))
    (clampInt (weightedSum PPMPixel.g m.image w h x y))
    (clampInt (weightedSum PPMPixel.b m.image w h x y)) m (by omega)
  rw [hs]
  rfl

theorem forLoopN_inv {σ : Type} (body : Nat → σ → Option σ) (P : Nat → σ → Prop) :
    ∀ (n lo : Nat) (s : σ), P lo s →
      (∀ i t, lo ≤ i → i < lo + n → P i t → ∃ t', body i t = some t' ∧ P (i + 1) t') →
      ∃ s', forLoopN body lo n s = some s' ∧ P (lo + n) s' := by
  intro n
  induction n with
  | zero =>
    intro lo s hP _
    exact ⟨s, rfl, hP⟩
  | succ k ih =>
    intro lo s hP hstep
    obtain ⟨t, ht, hPt⟩ := hstep lo s (Nat.le_refl lo) (by omega) hP
    obtain ⟨s', hs', hP'⟩ := ih (lo + 1) t hPt (fun i u h1 h2 hu => hstep i u (by omega) (by omega) hu)
    refine ⟨s', ?_, ?_⟩
    · simp only [forLoopN, ht, Option.some_bind, hs']
    · have : lo + (k + 1) = lo + 1 + k := by omega
      rw [this]
      exact hP'

theorem Painted.congr {img : List PPMPixel} {w h : Nat} {r0 : List PPMPixel}
    {done done' : Nat → Nat → Prop} {m : Mem} (hw : 0 < w)
    (hP : Painted img w h r0 done m) (he : ∀ x y, x < w → (done x y ↔ done' x y)) :
    Painted img w h r0 done' m := by
  refine ⟨hP.1, hP.2.1, fun idx hidx => ?_⟩
  have e := he (idx % w) (idx / w) (Nat.mod_lt _ hw)
  rw [← e]
  exact hP.2.2 idx hidx

theorem Painted.step {img : List PPMPixel} {w h : Nat} {r0 : List PPMPixel}
    {done : Nat → Nat → Prop} {m : Mem} (d : Dims w h) (hi : img.length = w * h)
    (hr : r0.length = w * h) (hP : Painted img w h r0 done m) (x y : Nat) (hx : x < w)
    (hy : y < h) :
    ∃ m', pixelBody w h x y m = some m' ∧
      Painted img w h r0 (fun x' y' => done x' y' ∨ (x' = x ∧ y' = y)) m' := by
  obtain ⟨h1, h2, h3⟩ := hP
  refine ⟨_, pixelBody_eq w h x y m d (by rw [h1, hi]) (by rw [h2, hr]) hx hy, ?_, ?_, ?_⟩
  · exact h1
  · simp only [List.length_set]
    exact h2
  · intro idx hidx
    have hdm : idx / w * w + idx % w = idx := Nat.div_add_mod' idx w
    have hq : (y * w + x) / w = y := by
      rw [Nat.add_comm, Nat.add_mul_div_right _ _ d.wpos, Nat.div_eq_of_lt hx, Nat.zero_add]
    have hm : (y * w + x) % w = x := by
      rw [Nat.add_comm, Nat.add_mul_mod_self_right, Nat.mod_eq_of_lt hx]
    simp only [List.getElem?_set]
    by_cases hc : y * w + x = idx
    · subst hc
      rw [if_pos rfl, if_pos (by rw [h2]; exact hidx), hq, hm, h1]
      exact ⟨fun _ => rfl, fun hn => absurd (Or.inr ⟨rfl, rfl⟩) hn⟩
    · rw [if_neg hc]
      have hne : ¬ (idx % w = x ∧ idx / w = y) := by
        rintro ⟨e1, e2⟩
        apply hc
        rw [← e1, ← e2]
        exact hdm
      constructor
      · intro hd
        rcases hd with hd | hd
        · exact (h3 idx hidx).1 hd
        · exact absurd hd hne
      · intro hd
        exact (h3 idx hidx).2 (fun hd' => hd (Or.inl hd'))

/-- The loop over the rows `lo .. lo + n - 1` of column `x`. -/
theorem column_paint {img : List PPMPixel} {w h : Nat} {r0 : List PPMPixel}
    {done : Nat → Nat → Prop} {m : Mem} (d : Dims w h) (hi : img.length = w * h)
    (hr : r0.length = w * h) (hP : Painted img w h r0 done m) (x lo n : Nat) (hx : x < w)
    (hn : lo + n ≤ h) :
    ∃ m', forLoopN (fun y => pixelBody w h x y) lo n m = some m' ∧
      Painted img w h r0 (fun x' y' => done x' y' ∨ (x' = x ∧ lo ≤ y' ∧ y' < lo + n)) m' := by
  have key := forLoopN_inv (fun y => pixelBody w h x y)
    (fun i t => Painted img w h r0 (fun x' y' => done x' y' ∨ (x' = x ∧ lo ≤ y' ∧ y' < i)) t)
    n lo m (hP.congr d.wpos (fun x' y' _ => by constructor <;> intro hh <;> [exact Or.inl hh; (rcases hh with hh | hh <;> [exact hh; omega])]))
    (fun i t h1 h2 ht => by
      obtain ⟨t', e, hp⟩ := ht.step d hi hr x i hx (by omega)
      refine ⟨t', e, hp.congr d.wpos (fun x' y' _ => ?_)⟩
      constructor
      · rintro ((hh | hh) | hh)
        · exact Or.inl hh
        · exact Or.inr ⟨hh.1, hh.2.1, by omega⟩
        · exact Or.inr ⟨hh.1, by omega, by omega⟩
      · rintro (hh | hh)
        · exact Or.inl (Or.inl hh)
        · by_cases hyi : y' = i
          · exact Or.inr ⟨hh.1, hyi⟩
          · exact Or.inl (Or.inr ⟨hh.1, hh.2.1, by omega⟩))
  exact key

/-- The two loops over the columns `0 .. w - 1` and the rows `lo .. lo + n - 1`. -/
theorem rows_paint {img : List PPMPixel} {w h : Nat} {r0 : List PPMPixel}
    {done : Nat → Nat → Prop} {m : Mem} (d : Dims w h) (hi : img.length = w * h)
    (hr : r0.length = w * h) (hP : Painted img w h r0 done m) (lo n : Nat) (hn : lo + n ≤ h) :
    ∃ m', forLoopN (fun x => forLoopN (fun y => pixelBody w h x y) lo n) 0 w m = some m' ∧
      Painted img w h r0 (fun x' y' => done x' y' ∨ (lo ≤ y' ∧ y' < lo + n)) m' := by
  obtain ⟨m', e, hp⟩ := forLoopN_inv (fun x => forLoopN (fun y => pixelBody w h x y) lo n)
    (fun i t => Painted img w h r0 (fun x' y' => done x' y' ∨ (x' < i ∧ lo ≤ y' ∧ y' < lo + n)) t)
    w 0 m (hP.congr d.wpos (fun x' y' _ => by constructor <;> intro hh <;> [exact Or.inl hh; (rcases hh with hh | hh <;> [exact hh; omega])]))
    (fun i t h1 h2 ht => by
      obtain ⟨t', e, hp⟩ := column_paint d hi hr ht i lo n (by omega) hn
      refine ⟨t', e, hp.congr d.wpos (fun x' y' _ => ?_)⟩
      constructor
      · rintro ((hh | hh) | hh)
        · exact Or.inl hh
        · exact Or.inr ⟨by omega, hh.2⟩
        · exact Or.inr ⟨by omega, hh.2⟩
      · rintro (hh | hh)
        · exact Or.inl (Or.inl hh)
        · by_cases hxi : x' = i
          · exact Or.inr ⟨hxi, hh.2⟩
          · exact Or.inl (Or.inr ⟨by omega, hh.2⟩))
  refine ⟨m', e, hp.congr d.wpos (fun x' y' hx' => ?_)⟩
  constructor
  · rintro (hh | hh)
    · exact Or.inl hh
    · exact Or.inr hh.2
  · rintro (hh | hh)
    · exact Or.inl hh
    · exact Or.inr ⟨by omega, hh⟩

theorem Painted.init (img : List PPMPixel) (w h : Nat) (r0 : List PPMPixel) :
    Painted img w h r0 (fun _ _ => False) { image := img, result := r0 } :=
  ⟨rfl, rfl, fun _ _ => ⟨fun hf => hf.elim, fun _ => rfl⟩⟩

theorem Painted.full {img : List PPMPixel} {w h : Nat} {r0 : List PPMPixel}
    {done : Nat → Nat → Prop} {m : Mem} (hr : r0.length = w * h)
    (hP : Painted img w h r0 done m) (hall : ∀ x y, x < w → y < h → done x y) :
    m.result = filtered img w h := by
  obtain ⟨_, h2, h3⟩ := hP
  apply List.ext_getElem?
  intro idx
  by_cases hidx : idx < w * h
  · have hw : 0 < w := Nat.pos_of_ne_zero (fun e => by subst e; simp at hidx)
    have hy : idx / w < h := by
      rw [Nat.div_lt_iff_lt_mul hw, Nat.mul_comm]
      exact hidx
    rw [(h3 idx (by omega)).1 (hall _ _ (Nat.mod_lt _ hw) hy)]
    unfold filtered
    rw [List.getElem?_map, List.getElem?_range hidx]
    rfl
  · rw [List.getElem?_eq_none (by omega), List.getElem?_eq_none]
    unfold filtered
    rw [List.length_map, List.length_range]
    omega

theorem serial_eq (image : List PPMPixel) (w h : Nat) (fresh : List PPMPixel) (d : Dims w h)
    (hi : image.length = w * h) (hr : fresh.length = w * h) :
    Serial.apply_filters image w h fresh = some (filtered image w h) := by
  obtain ⟨m', e, hp⟩ := rows_paint d hi hr (Painted.init image w h fresh) 0 h (by omega)
  unfold Serial.apply_filters forLoop
  simp only [Nat.sub_zero]
  rw [e, Option.map_some', hp.full hr (fun x y _ hy => Or.inr ⟨Nat.zero_le _, by omega⟩)]

theorem function_paint {img : List PPMPixel} {w h : Nat} {r0 : List PPMPixel}
    {done : Nat → Nat → Prop} {m : Mem} (d : Dims w h) (hi : img.length = w * h)
    (hr : r0.length = w * h) (hP : Painted img w h r0 done m) (start size : Nat)
    (hn : start + size ≤ h) :
    ∃ m', Pthreads.function { w := w, h := h, start := start, size := size } m = some m' ∧
      Painted img w h r0 (fun x' y' => done x' y' ∨ (start ≤ y' ∧ y' < start + size)) m' := by
  have hu : uadd start size = start + size := by
    have := d.hlt
    unfold uadd
    omega
  unfold Pthreads.function forLoop
  simp only [hu, Nat.sub_zero, Nat.add_sub_cancel_left]
  exact rows_paint d hi hr hP start size hn

theorem workOf_eq (N h : Nat) (hN : 0 < N) (hh : h < 2 ^ 31) :
    Pthreads.workOf N h = some ((h / N : Nat) : Int) := by
  have h1 : h / N ≤ h := Nat.div_le_self h N
  unfold Pthreads.workOf udiv
  rw [if_neg (by omega), Option.map_some', toInt_small _ (by omega)]

theorem mkParameter_eq (N w h i : Nat) (hh : h < 2 ^ 31) (hi : i < N) :
    Pthreads.mkParameter N w h ((h / N : Nat) : Int) i =
      some { w := w, h := h, start := i * (h / N),
             size := if i = N - 1 then h - i * (h / N) else h / N } := by
  have h1 : i * (h / N) ≤ h :=
    (Nat.mul_le_mul_right _ (Nat.le_of_lt hi)).trans (Nat.mul_div_le h N)
  have h2 : h / N ≤ h := Nat.div_le_self h N
  have h3 : ((i : Int)) * ((h / N : Nat) : Int) = ((i * (h / N) : Nat) : Int) := by push_cast; ring
  unfold Pthreads.mkParameter imul
  rw [h3, if_pos ⟨by omega, by omega⟩]
  simp only [Option.map_some', Option.bind_eq_bind, Option.some_bind]
  rw [ofInt_natCast _ (by omega), ofInt_natCast _ (by omega)]
  have h4 : usub h (i * (h / N)) = h - i * (h / N) := by
    unfold usub
    omega
  rw [h4]
  by_cases hc : i = N - 1
  · rw [if_pos hc, if_pos (by omega)]
  · rw [if_neg hc, if_neg (by omega)]

theorem parallel_eq (N : Nat) (image : List PPMPixel) (w h : Nat) (fresh : List PPMPixel)
    (hN : 0 < N) (d : Dims w h) (hi : image.length = w * h) (hr : fresh.length = w * h) :
    Pthreads.apply_filters N image w h fresh = some (filtered image w h) := by
  have hdiv : (N - 1) * (h / N) ≤ h :=
    (Nat.mul_le_mul_right _ (Nat.sub_le N 1)).trans (Nat.mul_div_le h N)
  obtain ⟨m', e, hp⟩ := forLoopN_inv
    (fun i m => (Pthreads.mkParameter N w h ((h / N : Nat) : Int) i).bind
      (fun p => Pthreads.function p m))
    (fun i t => Painted image w h fresh
      (fun _ y' => y' < (if i < N then i * (h / N) else h)) t)
    N 0 { image := image, result := fresh }
    ((Painted.init image w h fresh).congr d.wpos (fun x' y' _ => by
      rw [if_pos hN]
      simp))
    (fun i t h1 h2 ht => by
      have hiN : i < N := by omega
      show ∃ t', (Pthreads.mkParameter N w h ((h / N : Nat) : Int) i).bind
          (fun p => Pthreads.function p t) = some t' ∧
        Painted image w h fresh
          (fun _ y' => y' < (if i + 1 < N then (i + 1) * (h / N) else h)) t'
      replace ht : Painted image w h fresh
          (fun _ y' => y' < (if i < N then i * (h / N) else h)) t := ht
      rw [mkParameter_eq N w h i d.hlt hiN, Option.some_bind]
      have hle : (i + 1) * (h / N) ≤ h :=
        (Nat.mul_le_mul_right _ hiN).trans (Nat.mul_div_le h N)
      have hle' : i * (h / N) + h / N ≤ h := by
        rw [Nat.add_mul, Nat.one_mul] at hle
        exact hle
      have hs : i * (h / N) ≤ h := Nat.le_of_add_right_le hle'
      have hk0 : 0 ≤ h / N := Nat.zero_le _
      by_cases hc : i = N - 1
      · rw [if_pos hc]
        obtain ⟨t', e, hp⟩ := function_paint d hi hr ht (i * (h / N)) (h - i * (h / N)) (by omega)
        refine ⟨t', e, hp.congr d.wpos (fun x' y' _ => ?_)⟩
        rw [if_pos hiN, if_neg (by omega)]
        omega
      · rw [if_neg hc]
        obtain ⟨t', e, hp⟩ := function_paint d hi hr ht (i * (h / N)) (h / N) hle'
        refine ⟨t', e, hp.congr d.wpos (fun x' y' _ => ?_)⟩
        rw [if_pos hiN, if_pos (by omega), Nat.add_mul, Nat.one_mul]
        omega)
  unfold Pthreads.apply_filters forLoop
  rw [workOf_eq N h hN d.hlt]
  simp only [Option.bind_eq_bind, Option.some_bind, Nat.sub_zero]
  have e' : forLoopN (fun i m => (Pthreads.mkParameter N w h ((h / N : Nat) : Int) i).bind
      fun p => Pthreads.function p m) 0 N { image := image, result := fresh } = some m' := e
  rw [e', Option.some_bind, hp.full hr (fun x y _ hy => by
    rw [Nat.zero_add, if_neg (Nat.lt_irrefl N)]
    exact hy)]

theorem truncate_range (v : ℚ) (h1 : -2 ^ 31 - 1 < v) (h2 : v < 2 ^ 31) :
    -2 ^ 31 ≤ truncate v ∧ truncate v < 2 ^ 31 := by
  unfold truncate
  by_cases hv : 0 ≤ v
  · rw [if_pos hv]
    have h3 : (0 : Int) ≤ ⌊v⌋ := Int.floor_nonneg.mpr hv
    have h4 : ⌊v⌋ < (2 ^ 31 : Int) := by
      rw [Int.floor_lt]
      exact_mod_cast h2
    omega
  · rw [if_neg hv]
    have h3 : ⌈v⌉ ≤ (0 : Int) := by
      rw [Int.ceil_le]
      exact_mod_cast le_of_lt (not_le.mp hv)
    have h4 : (-2 ^ 31 - 1 : Int) < ⌈v⌉ := by
      rw [Int.lt_ceil]
      exact_mod_cast h1
    omega

theorem clampChannel_eq_spec (v : ℚ) (h1 : -2 ^ 31 - 1 < v) (h2 : v < 2 ^ 31) :
    clampChannel v = some (clampSpec v) := by
  have hr := truncate_range v h1 h2
  unfold clampChannel doubleToInt doubleToUChar clampSpec
  rw [if_pos hr]
  simp only [Option.bind_eq_bind, Option.some_bind]
  by_cases hv : v < 0
  · rw [if_pos hv]
    have ht : truncate v ≤ 0 := by
      unfold truncate
      rw [if_neg (not_le.mpr hv), Int.ceil_le]
      exact_mod_cast le_of_lt hv
    by_cases hz : truncate v < 0
    · rw [if_pos hz]
    · have h0 : truncate v = 0 := by omega
      rw [h0]
      rfl
  · rw [if_neg hv]
    have hv0 : 0 ≤ v := not_lt.mp hv
    have ht : truncate v = ⌊v⌋ := by
      unfold truncate
      rw [if_pos hv0]
    have ht0 : 0 ≤ truncate v := by
      rw [ht]
      exact Int.floor_nonneg.mpr hv0
    rw [if_neg (by omega)]
    by_cases hb : v > 255
    · rw [if_pos hb]
      have h255 : (255 : Int) ≤ truncate v := by
        rw [ht, Int.le_floor]
        exact_mod_cast le_of_lt hb
      by_cases hz : truncate v > 255
      · rw [if_pos hz]
      · have h0 : truncate v = 255 := by omega
        rw [h0]
        rfl
    · rw [if_neg hb]
      have h255 : truncate v < 256 := by
        rw [ht, Int.floor_lt]
        have : v ≤ 255 := not_lt.mp hb
        push_cast
        linarith
      rw [if_neg (by omega), if_pos ⟨ht0, h255⟩]

theorem range_unique (N k h i j y : Nat) (hi : i < N) (hj : j < N)
    (hyi : i * k ≤ y ∧ y < i * k + (if i = N - 1 then h - i * k else k))
    (hyj : j * k ≤ y ∧ y < j * k + (if j = N - 1 then h - j * k else k)) : i = j := by
  have mono : ∀ a b : Nat, a < b → a * k + k ≤ b * k := by
    intro a b hab
    have := Nat.mul_le_mul_right k (Nat.succ_le_of_lt hab)
    rw [Nat.succ_mul] at this
    exact this
  rcases Nat.lt_trichotomy i j with hlt | heq | hgt
  · exfalso
    have h1 := mono i j hlt
    rw [if_neg (by omega)] at hyi
    omega
  · exact heq
  · exfalso
    have h1 := mono j i hgt
    rw [if_neg (by omega)] at hyj
    omega

theorem range_exists (N k h y : Nat) (hN : 0 < N) (hk : (N - 1) * k ≤ h) (hy : y < h) :
    ∃ i, i < N ∧ i * k ≤ y ∧ y < i * k + (if i = N - 1 then h - i * k else k) := by
  by_cases hl : (N - 1) * k ≤ y
  · exact ⟨N - 1, by omega, hl, by rw [if_pos rfl]; omega⟩
  · have hkpos : 0 < k := by
      rcases Nat.eq_zero_or_pos k with h0 | h0
      · subst h0
        simp at hl
      · exact h0
    have hq : y / k < N - 1 := by
      rw [Nat.div_lt_iff_lt_mul hkpos]
      omega
    refine ⟨y / k, by omega, Nat.div_mul_le_self y k, ?_⟩
    rw [if_neg (by omega)]
    have := @Nat.lt_div_mul_add y k hkpos
    omega

theorem Frame.refl (S : Nat → Prop) (m : Mem) : Frame S m m := ⟨rfl, rfl, fun _ _ => rfl⟩

theorem Frame.trans {S : Nat → Prop} {a b c : Mem} (h1 : Frame S a b) (h2 : Frame S b c) :
    Frame S a c :=
  ⟨h2.1.trans h1.1, h2.2.1.trans h1.2.1, fun idx hn => (h2.2.2 idx hn).trans (h1.2.2 idx hn)⟩

theorem Frame.mono {S T : Nat → Prop} {a b : Mem} (h : Frame S a b) (hst : ∀ idx, S idx → T idx) :
    Frame T a b :=
  ⟨h.1, h.2.1, fun idx hn => h.2.2 idx (fun hs => hn (hst idx hs))⟩

theorem store_frame (idx : Nat) (f : PPMPixel → PPMPixel) (m m' : Mem)
    (h : (m.result[idx]?).map (fun px => { m with result := m.result.set idx (f px) }) = some m') :
    Frame (fun j => j = idx) m m' := by
  rw [Option.map_eq_some'] at h
  obtain ⟨px, _, rfl⟩ := h
  refine ⟨rfl, List.length_set _ _ _, fun j hj => ?_⟩
  exact List.getElem?_set_ne (fun e => hj e.symm)

theorem pixelBody_frame (w h x y : Nat) (m m' : Mem) (hb : pixelBody w h x y m = some m') :
    Frame (fun j => j = uadd (umul y w) x) m m' := by
  unfold pixelBody at hb
  simp only [Option.bind_eq_bind, Option.bind_eq_some] at hb
  obtain ⟨a, _, r, _, m1, h1, g, _, m2, h2, b, _, h3⟩ := hb
  exact ((store_frame _ _ m m1 h1).trans (store_frame _ _ m1 m2 h2)).trans
    (store_frame _ _ m2 m' h3)

theorem forLoopN_rel {σ : Type} (body : Nat → σ → Option σ) (Q : σ → σ → Prop)
    (hrefl : ∀ s, Q s s) (htrans : ∀ a b c, Q a b → Q b c → Q a c) :
    ∀ (n lo : Nat) (s s' : σ),
      (∀ i t t', lo ≤ i → i < lo + n → body i t = some t' → Q t t') →
      forLoopN body lo n s = some s' → Q s s' := by
  intro n
  induction n with
  | zero =>
    intro lo s s' _ h
    simp only [forLoopN, Option.some.injEq] at h
    subst h
    exact hrefl s
  | succ k ih =>
    intro lo s s' hstep h
    simp only [forLoopN, Option.bind_eq_some] at h
    obtain ⟨t, ht, hrest⟩ := h
    exact htrans s t s' (hstep lo s t (Nat.le_refl lo) (by omega) ht)
      (ih (lo + 1) t s' (fun i u u' h1 h2 hu => hstep i u u' (by omega) (by omega) hu) hrest)

theorem function_frame (p : Pthreads.parameter) (m m' : Mem) (hse : p.start + p.size ≤ p.h)
    (haddr : p.w * p.h < 2 ^ 64) (hf : Pthreads.function p m = some m') :
    Frame (inRows p.w p.start p.size) m m' := by
  unfold Pthreads.function forLoop at hf
  refine forLoopN_rel _ (Frame (inRows p.w p.start p.size)) (Frame.refl _)
    (fun a b c => Frame.trans) _ _ m m' ?_ hf
  intro x t t' _ hx ht
  have hx' : x < p.w := by omega
  have hh : p.h ≤ p.w * p.h := Nat.le_mul_of_pos_left _ (by omega)
  have hu : uadd p.start p.size = p.start + p.size := by
    unfold uadd
    omega
  rw [hu] at ht
  refine forLoopN_rel _ (Frame (inRows p.w p.start p.size)) (Frame.refl _)
    (fun a b c => Frame.trans) _ _ t t' ?_ ht
  intro y u u' hy1 hy2 hu'
  have hy : y < p.h := by omega
  have hidx := index_lt x y p.w p.h hx' hy
  have hwr : uadd (umul y p.w) x = y * p.w + x := by
    unfold uadd umul
    omega
  refine (pixelBody_frame p.w p.h x y u u' hu').mono (fun idx hidx' => ?_)
  exact ⟨y, x, hy1, by omega, hx', by rw [hidx', hwr]⟩

theorem sourceAt_mem (image : List PPMPixel) (w h x y fy fx : Nat) (d : Dims w h)
    (hi : image.length = w * h) : sourceAt image w h x y fy fx ∈ image := by
  have hcx := wrapCoord_lt x fx w d.wpos
  have hcy := wrapCoord_lt y fy h d.hpos
  have hidx := index_lt _ _ w h hcx hcy
  unfold sourceAt
  rw [List.getD_eq_getElem?_getD, List.getElem?_eq_getElem (by omega)]
  exact List.getElem_mem _

theorem weightedSum_uniform (chan : PPMPixel → UChar) (image : List PPMPixel) (w h x y : Nat)
    (c : UChar) (d : Dims w h) (hi : image.length = w * h) (hu : ∀ p ∈ image, chan p = c) :
    weightedSum chan image w h x y = 0 := by
  have hr : List.range 3 = [0, 1, 2] := by decide
  have hs : ∀ fy fx, chan (sourceAt image w h x y fy fx) = c :=
    fun fy fx => hu _ (sourceAt_mem image w h x y fy fx d hi)
  simp only [weightedSum, hr, List.map_cons, List.map_nil, List.sum_cons, List.sum_nil, K,
    kernelK, List.getD_cons_zero, List.getD_cons_succ, hs]
  omega

theorem filtered_uniform (image : List PPMPixel) (w h : Nat) (v : UChar) (d : Dims w h)
    (hi : image.length = w * h) (hu : ∀ p ∈ image, p = { r := v, g := v, b := v }) :
    filtered image w h = List.replicate (w * h) black := by
  rw [List.eq_replicate_iff]
  unfold filtered
  refine ⟨by rw [List.length_map, List.length_range], ?_⟩
  intro p hp
  rw [List.mem_map] at hp
  obtain ⟨idx, _, rfl⟩ := hp
  unfold filteredPixel
  rw [weightedSum_uniform PPMPixel.r image w h _ _ v d hi (fun p hp => by rw [hu p hp]),
    weightedSum_uniform PPMPixel.g image w h _ _ v d hi (fun p hp => by rw [hu p hp]),
    weightedSum_uniform PPMPixel.b image w h _ _ v d hi (fun p hp => by rw [hu p hp])]
  rfl

theorem forLoopN_none {σ : Type} (body : Nat → σ → Option σ) (Inv : σ → Prop) (k : Nat)
    (hpres : ∀ i s s', Inv s → body i s = some s' → Inv s')
    (hfail : ∀ s, Inv s → body k s = none) :
    ∀ (n lo : Nat) (s : σ), lo ≤ k → k < lo + n → Inv s → forLoopN body lo n s = none := by
  intro n
  induction n with
  | zero =>
    intro lo s h1 h2 _
    omega
  | succ j ih =>
    intro lo s h1 h2 hs
    simp only [forLoopN]
    by_cases hk : lo = k
    · subst hk
      rw [hfail s hs]
      rfl
    · cases hb : body lo s with
      | none => rfl
      | some t =>
        rw [Option.some_bind]
        exact ih (lo + 1) t (by omega) (by omega) (hpres lo s t hs hb)

theorem column_image (w h x lo n : Nat) (m m' : Mem)
    (hl : forLoopN (fun y => pixelBody w h x y) lo n m = some m') : m'.image = m.image :=
  forLoopN_rel _ (fun a b => b.image = a.image) (fun _ => rfl)
    (fun a b c (h1 : b.image = a.image) (h2 : c.image = b.image) => h2.trans h1)
    n lo m m' (fun y t t' _ _ ht => (pixelBody_frame w h x y t t' ht).1) hl

theorem filtered_getElem? (image : List PPMPixel) (w h x y : Nat) (hx : x < w) (hy : y < h) :
    (filtered image w h)[y * w + x]? = some (filteredPixel image w h x y) := by
  have hw : 0 < w := by omega
  have hq : (y * w + x) / w = y := by
    rw [Nat.add_comm, Nat.add_mul_div_right _ _ hw, Nat.div_eq_of_lt hx, Nat.zero_add]
  have hm : (y * w + x) % w = x := by
    rw [Nat.add_comm, Nat.add_mul_mod_self_right, Nat.mod_eq_of_lt hx]
  unfold filtered
  rw [List.getElem?_map, List.getElem?_range (index_lt x y w h hx hy), Option.map_some', hq, hm]

theorem wrapCoord_val (x fx w : Nat) (hw : 0 < w) (hx : x < w) (hf : fx < 3) :
    wrapCoord x fx w =
      if x + fx = 0 then w - 1 else if x + fx ≤ w then x + fx - 1 else x + fx - 1 - w := by
  rw [wrapCoord_eq x fx w hw]
  by_cases h0 : x + fx = 0
  · rw [if_pos h0]
    have : x + fx + w - 1 = w - 1 := by omega
    rw [this]
    exact Nat.mod_eq_of_lt (by omega)
  · rw [if_neg h0]
    by_cases h1 : x + fx ≤ w
    · rw [if_pos h1]
      have : x + fx + w - 1 = (x + fx - 1) + w := by omega
      rw [this, Nat.add_mod_right]
      exact Nat.mod_eq_of_lt (by omega)
    · rw [if_neg h1]
      have : x + fx + w - 1 = (x + fx - 1 - w) + w + w := by omega
      rw [this, Nat.add_mod_right, Nat.add_mod_right]
      exact Nat.mod_eq_of_lt (by omega)

theorem imageCoord_val (x fx w c : Nat) (hw : 0 < w) (hw2 : w < 2 ^ 31) (hx : x < w) (hf : fx < 3)
    (hc : c = if x + fx = 0 then w - 1 else if x + fx ≤ w then x + fx - 1 else x + fx - 1 - w) :
    imageCoord x 3 fx w = some (c : Int) := by
  rw [imageCoord_eq x fx w hw hw2 hx hf, wrapCoord_val x fx w hw hx hf, ← hc]

theorem index_inj (w cx cy cx' cy' : Nat) (hx : cx < w) (hx' : cx' < w)
    (he : cy * w + cx = cy' * w + cx') : cx = cx' ∧ cy = cy' := by
  have hw : 0 < w := by omega
  have q : ∀ a b : Nat, b < w → (a * w + b) / w = a := by
    intro a b hb
    rw [Nat.add_comm, Nat.add_mul_div_right _ _ hw, Nat.div_eq_of_lt hb, Nat.zero_add]
  have r : ∀ a b : Nat, b < w → (a * w + b) % w = b := by
    intro a b hb
    rw [Nat.add_comm, Nat.add_mul_mod_self_right, Nat.mod_eq_of_lt hb]
  constructor
  · rw [← r cy cx hx, he, r cy' cx' hx']
  · rw [← q cy cx hx, he, q cy' cx' hx']

theorem digitByte_val (d : Nat) (hd : d < 10) : (digitByte d).val = 48 + d := by
  show (48 + d) % 256 = 48 + d
  omega

theorem pixelBytes_length (ps : List PPMPixel) : (pixelBytes ps).length = 3 * ps.length := by
  induction ps with
  | nil => rfl
  | cons p ps ih =>
    simp only [pixelBytes, List.length_cons, ih]
    omega

theorem bytesPixels_pixelBytes (ps : List PPMPixel) : bytesPixels (pixelBytes ps) = ps := by
  induction ps with
  | nil => rfl
  | cons p ps ih => simp only [pixelBytes, bytesPixels, ih]

theorem scanDigits_digits (ds : List Nat) (hds : ∀ d ∈ ds, d < 10) (rest : List UChar) :
    ∀ acc k, scanDigits (ds.map digitByte ++ rest) acc k
      = scanDigits rest (ds.foldl (fun a d => a * 10 + d) acc) (k + ds.length) := by
  induction ds with
  | nil => intro acc k; rfl
  | cons d ds ih =>
    intro acc k
    have hd : d < 10 := hds d (List.mem_cons_self _ _)
    have hv := digitByte_val d hd
    have hdig : isDigit (digitByte d) = true := by
      unfold isDigit
      rw [hv]
      simp only [Bool.and_eq_true, decide_eq_true_eq]
      omega
    have e1 : 48 + d - 48 = d := by omega
    have e2 : k + 1 + ds.length = k + (ds.length + 1) := by omega
    rw [List.map_cons, List.cons_append, scanDigits, if_pos hdig,
      ih (fun e he => hds e (List.mem_cons_of_mem _ he)), hv, List.foldl_cons, List.length_cons,
      e1, e2]

theorem foldl_digits (n : Nat) :
    (Nat.digits 10 n).reverse.foldl (fun a d => a * 10 + d) 0 = n := by
  rw [List.foldl_reverse]
  have h : ∀ L : List Nat, L.foldr (fun d a => a * 10 + d) 0 = Nat.ofDigits 10 L := by
    intro L
    induction L with
    | nil => rfl
    | cons d L ih =>
      rw [List.foldr_cons, ih, Nat.ofDigits_cons]
      omega
  rw [h, Nat.ofDigits_digits]

theorem printDecimal_eq (n : Nat) : printDecimal n = (decimalDigits n).map digitByte := by
  unfold printDecimal decimalDigits
  split
  · rfl
  · rfl

theorem decimalDigits_lt (n : Nat) : ∀ d ∈ decimalDigits n, d < 10 := by
  intro d hd
  unfold decimalDigits at hd
  split at hd
  · simp only [List.mem_singleton] at hd
    omega
  · rw [List.mem_reverse] at hd
    exact Nat.digits_lt_base (by decide) hd

theorem decimalDigits_ne_nil (n : Nat) : decimalDigits n ≠ [] := by
  unfold decimalDigits
  split
  · exact List.cons_ne_nil _ _
  · rename_i h
    intro e
    rw [List.reverse_eq_nil_iff] at e
    exact (Nat.digits_ne_nil_iff_ne_zero.mpr h) e

theorem decimalDigits_value (n : Nat) :
    (decimalDigits n).foldl (fun a d => a * 10 + d) 0 = n := by
  unfold decimalDigits
  split
  · rename_i h
    rw [h]
    rfl
  · exact foldl_digits n

/-- The printed number starts with a digit. -/
theorem printDecimal_head (n : Nat) :
    ∃ c t, printDecimal n = c :: t ∧ 48 ≤ c.val ∧ c.val ≤ 57 := by
  rw [printDecimal_eq]
  have hne := decimalDigits_ne_nil n
  have hlt := decimalDigits_lt n
  cases hd : decimalDigits n with
  | nil => exact absurd hd hne
  | cons d ds =>
    rw [hd] at hlt
    have h1 : d < 10 := hlt d (List.mem_cons_self _ _)
    refine ⟨digitByte d, ds.map digitByte, rfl, ?_⟩
    rw [digitByte_val d h1]
    omega

theorem skipSpace_print (n : Nat) (rest : List UChar) :
    skipSpace (printDecimal n ++ rest) = printDecimal n ++ rest := by
  obtain ⟨c, t, e, h1, h2⟩ := printDecimal_head n
  have hs : isSpace c = false := by
    unfold isSpace
    simp only [Bool.or_eq_false_iff, Bool.and_eq_false_imp, decide_eq_false_iff_not,
      decide_eq_true_eq]
    omega
  rw [e, List.cons_append]
  simp only [skipSpace, hs]
  rfl

theorem scanSign_print (n : Nat) (rest : List UChar) :
    scanSign (printDecimal n ++ rest) = (false, printDecimal n ++ rest) := by
  obtain ⟨c, t, e, h1, h2⟩ := printDecimal_head n
  have h45 : c ≠ 45 := fun h => by rw [h] at h1; exact absurd h1 (by decide)
  have h43 : c ≠ 43 := fun h => by rw [h] at h1; exact absurd h1 (by decide)
  rw [e, List.cons_append]
  simp only [scanSign, if_neg h45, if_neg h43]

theorem skipComments_print (n : Nat) (rest : List UChar) :
    skipComments false (printDecimal n ++ rest) = .ok (printDecimal n ++ rest) := by
  obtain ⟨c, t, e, h1, h2⟩ := printDecimal_head n
  have h35 : c ≠ 35 := fun h => by rw [h] at h1; exact absurd h1 (by decide)
  rw [e, List.cons_append]
  simp only [skipComments, if_neg h35]

theorem scanNumber_print (s : List UChar) (n : Nat) (c : UChar) (rest : List UChar)
    (hs : skipSpace s = printDecimal n ++ c :: rest) (hc : isDigit c = false) :
    scanNumber s = (some (false, n), c :: rest) := by
  have hlen : 0 < (decimalDigits n).length := List.length_pos.mpr (decimalDigits_ne_nil n)
  unfold scanNumber
  simp only [hs, scanSign_print]
  rw [printDecimal_eq, scanDigits_digits _ (decimalDigits_lt n), decimalDigits_value]
  simp only [scanDigits, hc, Nat.zero_add, Bool.false_eq_true, if_false]
  rw [if_neg (by omega)]

theorem scanULong_print (s : List UChar) (n : Nat) (c : UChar) (rest : List UChar)
    (hs : skipSpace s = printDecimal n ++ c :: rest) (hc : isDigit c = false)
    (hn : n < 2 ^ 64) : scanULong s = .ok (some n, c :: rest) := by
  unfold scanULong
  rw [scanNumber_print s n c rest hs hc]
  simp only
  rw [if_neg (by omega)]
  rfl

theorem scanInt_print (s : List UChar) (n : Nat) (c : UChar) (rest : List UChar)
    (hs : skipSpace s = printDecimal n ++ c :: rest) (hc : isDigit c = false)
    (hn : n < 2 ^ 31) : scanInt s = .ok (some (n : Int), c :: rest) := by
  unfold scanInt
  rw [scanNumber_print s n c rest hs hc]
  simp only [Bool.false_eq_true, if_false]
  rw [if_neg (by omega)]

theorem readImage_header (w h : Nat) (data : List UChar) (hw : 0 < w) (hh : 0 < h)
    (hsz : 3 * w * h < 2 ^ 64) (hlen : data.length = 3 * w * h) :
    readImage (header w h ++ data)
      = .ok { width := w, height := h, pixels := bytesPixels data } := by
  have hwh : w ≤ w * h := Nat.le_mul_of_pos_right w hh
  have hhw : h ≤ w * h := Nat.le_mul_of_pos_left h hw
  have hwh3 : 3 * w * h = 3 * (w * h) := Nat.mul_assoc 3 w h
  have hm : umul 3 w = 3 * w := by
    unfold umul
    omega
  have hm2 : umul (umul w h) 3 = 3 * w * h := by
    unfold umul
    omega
  have hline : fgets 15 (header w h ++ data)
      = ([80, 54, 10], printDecimal w ++ 32 :: (printDecimal h ++ 10 ::
          (printDecimal RGB_COMPONENT_COLOR ++ 10 :: data))) := by
    unfold header
    simp [fgets]
  have hnl : isDigit 10 = false := by decide
  have hsp : isDigit 32 = false := by decide
  have hread : fread (3 * w) h data = (h, data) := by
    have hpos : 0 < 3 * w := by omega
    unfold fread
    rw [if_neg (by omega), hlen, Nat.mul_div_cancel_left h hpos, Nat.min_self,
      List.take_of_length_le (by omega)]
  unfold readImage
  have hs1 : ∀ (c : UChar) (n : Nat) (r : List UChar), isSpace c = true →
      skipSpace (c :: (printDecimal n ++ r)) = printDecimal n ++ r := by
    intro c n r hc
    rw [skipSpace, if_pos hc, skipSpace_print]
  have hs2 : skipSpace (skipSpace (32 :: (printDecimal h ++ 10 ::
      (printDecimal RGB_COMPONENT_COLOR ++ 10 :: data))))
      = printDecimal h ++ 10 :: (printDecimal RGB_COMPONENT_COLOR ++ 10 :: data) := by
    rw [hs1 32 h _ (by decide), skipSpace_print]
  have hline2 : skipLine (10 :: data) = .ok data := by
    rw [skipLine, if_pos rfl]
  simp only [hline, skipComments_print, bind, Except.bind, pure, Except.pure, throw,
    throwThe, MonadExceptOf.throw]
  rw [scanULong_print _ w 32 _ (skipSpace_print w _) hsp (by omega)]
  simp only
  rw [scanULong_print _ h 10 _ hs2 hnl (by omega)]
  simp only
  rw [scanInt_print _ RGB_COMPONENT_COLOR 10 _ (hs1 10 _ _ (by decide)) hnl (by decide)]
  simp only [hline2, hm, hm2, hread, hlen]
  simp

theorem weightedSum_tight (chan : PPMPixel → UChar) (image : List PPMPixel) (w h x y : Nat) :
    -2040 ≤ weightedSum chan image w h x y ∧ weightedSum chan image w h x y ≤ 2040 := by
  have hr : List.range 3 = [0, 1, 2] := by decide
  have hb : ∀ fy fx, ((chan (sourceAt image w h x y fy fx)).val : Int) < 256 := by
    intro fy fx
    exact_mod_cast (chan (sourceAt image w h x y fy fx)).isLt
  have h00 := hb 0 0
  have h01 := hb 0 1
  have h02 := hb 0 2
  have h10 := hb 1 0
  have h11 := hb 1 1
  have h12 := hb 1 2
  have h20 := hb 2 0
  have h21 := hb 2 1
  have h22 := hb 2 2
  simp only [weightedSum, hr, List.map_cons, List.map_nil, List.sum_cons, List.sum_nil, K,
    kernelK, List.getD_cons_zero, List.getD_cons_succ]
  omega

theorem clampInt_eq_min_max (z : Int) :
    clampInt z = Fin.ofNat (min 255 (max 0 z)).toNat := by
  unfold clampInt
  by_cases h1 : z < 0
  · rw [if_pos h1, max_eq_left (by omega), min_eq_right (by omega)]
    rfl
  · rw [if_neg h1, max_eq_right (by omega)]
    by_cases h2 : z > 255
    · rw [if_pos h2, min_eq_left (by omega)]
      rfl
    · rw [if_neg h2, min_eq_right (by omega)]

theorem doubleToInt_intCast (z : Int) (h1 : -2 ^ 31 ≤ z) (h2 : z < 2 ^ 31) :
    doubleToInt (laplacian_factor * (z : ℚ)) = some z := by
  unfold doubleToInt laplacian_factor
  rw [one_mul, truncate_intCast, if_pos ⟨h1, h2⟩]

theorem skipComments_body (c : List UChar) (hc : (10 : UChar) ∉ c) (rest : List UChar) :
    skipComments true (c ++ 10 :: rest) = skipComments false rest := by
  induction c with
  | nil => simp only [List.nil_append, skipComments, if_true]
  | cons b c ih =>
    have hb : b ≠ 10 := fun e => hc (by rw [e]; exact List.mem_cons_self _ _)
    rw [List.cons_append, skipComments, if_neg hb]
    exact ih (fun hm => hc (List.mem_cons_of_mem _ hm))

theorem skipComments_line (c : List UChar) (hc : (10 : UChar) ∉ c) (rest : List UChar) :
    skipComments false (35 :: (c ++ 10 :: rest)) = skipComments false rest := by
  rw [skipComments, if_pos rfl, skipComments_body c hc rest]

theorem skipComments_lines (cs : List (List UChar)) (hcs : ∀ c ∈ cs, (10 : UChar) ∉ c)
    (rest : List UChar) :
    skipComments false (commentLines cs ++ rest) = skipComments false rest := by
  induction cs with
  | nil => rfl
  | cons c cs ih =>
    have e : commentLines (c :: cs) ++ rest = 35 :: (c ++ 10 :: (commentLines cs ++ rest)) := by
      simp only [commentLines, List.cons_append, List.append_assoc]
    rw [e, skipComments_line c (hcs c (List.mem_cons_self _ _))]
    exact ih (fun l hl => hcs l (List.mem_cons_of_mem _ hl))

theorem skipSpace_separator (sep : List UChar) (hsep : ∀ b ∈ sep, isSpace b = true)
    (rest : List UChar) : skipSpace (sep ++ rest) = skipSpace rest := by
  induction sep with
  | nil => rfl
  | cons b sep ih =>
    rw [List.cons_append, skipSpace, if_pos (hsep b (List.mem_cons_self _ _))]
    exact ih (fun l hl => hsep l (List.mem_cons_of_mem _ hl))

theorem separator_head (sep : List UChar) (hsep : IsSeparator sep) :
    ∃ c t, sep = c :: t ∧ isDigit c = false := by
  obtain ⟨hne, hall⟩ := hsep
  cases sep with
  | nil => exact absurd rfl hne
  | cons c t =>
    refine ⟨c, t, rfl, ?_⟩
    have hs := hall c (List.mem_cons_self _ _)
    unfold isSpace at hs
    unfold isDigit
    simp only [Bool.or_eq_true, Bool.and_eq_true, decide_eq_true_eq] at hs
    simp only [Bool.and_eq_false_imp, decide_eq_true_eq, decide_eq_false_iff_not]
    omega

theorem scanNumber_minus (s : List UChar) (n : Nat) (c : UChar) (rest : List UChar)
    (hs : skipSpace s = 45 :: (printDecimal n ++ c :: rest)) (hc : isDigit c = false) :
    scanNumber s = (some (true, n), c :: rest) := by
  have hlen : 0 < (decimalDigits n).length := List.length_pos.mpr (decimalDigits_ne_nil n)
  unfold scanNumber
  simp only [hs, scanSign, if_true]
  rw [printDecimal_eq, scanDigits_digits _ (decimalDigits_lt n), decimalDigits_value]
  simp only [scanDigits, hc, Nat.zero_add, Bool.false_eq_true, if_false]
  rw [if_neg (by omega)]

theorem scanInt_field (s : List UChar) (neg : Bool) (v : Nat) (c : UChar) (rest : List UChar)
    (hs : skipSpace s = maxField neg v ++ c :: rest) (hc : isDigit c = false) :
    scanInt s =
      if neg then (if 2 ^ 31 < v then .error .undefined else .ok (some (-(v : Int)), c :: rest))
      else (if 2 ^ 31 ≤ v then .error .undefined else .ok (some (v : Int), c :: rest)) := by
  unfold scanInt
  cases neg with
  | true =>
    have hs' : skipSpace s = 45 :: (printDecimal v ++ c :: rest) := by
      rw [hs]
      rfl
    rw [scanNumber_minus s v c rest hs' hc]
  | false =>
    have hs' : skipSpace s = printDecimal v ++ c :: rest := by
      rw [hs]
      rfl
    rw [scanNumber_print s v c rest hs' hc]

theorem maxField_skipSpace (neg : Bool) (v : Nat) (rest : List UChar) :
    skipSpace (maxField neg v ++ rest) = maxField neg v ++ rest := by
  cases neg with
  | true =>
    show skipSpace (45 :: (printDecimal v ++ rest)) = 45 :: (printDecimal v ++ rest)
    rw [skipSpace, if_neg (by decide)]
  | false => exact skipSpace_print v rest

theorem readImage_dims (cs : List (List UChar)) (w h : Nat) (sep1 sep2 X : List UChar)
    (hcs : ∀ c ∈ cs, (10 : UChar) ∉ c) (hw : w < 2 ^ 64) (hh : h < 2 ^ 64)
    (h1 : IsSeparator sep1) (h2 : IsSeparator sep2) :
    readImage ([80, 54, 10] ++ (commentLines cs ++ (printDecimal w ++ (sep1 ++
      (printDecimal h ++ (sep2 ++ X)))))) = readBody w h (sep2 ++ X) := by
  obtain ⟨c1, t1, e1, d1⟩ := separator_head sep1 h1
  obtain ⟨c2, t2, e2, d2⟩ := separator_head sep2 h2
  have hline : ∀ Y : List UChar, fgets 15 ([80, 54, 10] ++ Y) = ([80, 54, 10], Y) := by
    intro Y
    simp [fgets]
  have hsw : scanULong (printDecimal w ++ (sep1 ++ (printDecimal h ++ (sep2 ++ X))))
      = .ok (some w, sep1 ++ (printDecimal h ++ (sep2 ++ X))) := by
    have := scanULong_print (printDecimal w ++ (sep1 ++ (printDecimal h ++ (sep2 ++ X)))) w c1
      (t1 ++ (printDecimal h ++ (sep2 ++ X)))
      (by rw [skipSpace_print, e1]; rfl) d1 hw
    rw [this, e1]
    rfl
  have hsh : scanULong (skipSpace (sep1 ++ (printDecimal h ++ (sep2 ++ X))))
      = .ok (some h, sep2 ++ X) := by
    have := scanULong_print (skipSpace (sep1 ++ (printDecimal h ++ (sep2 ++ X)))) h c2
      (t2 ++ X)
      (by rw [skipSpace_separator sep1 h1.2, skipSpace_print, skipSpace_print, e2]; rfl) d2 hh
    rw [this, e2]
    rfl
  unfold readImage readBody
  simp only [hline, skipComments_lines cs hcs, skipComments_print, bind, Except.bind, pure,
    Except.pure, throw, throwThe, MonadExceptOf.throw]
  rw [hsw]
  simp only
  rw [hsh]
  simp

theorem readBody_field (w h : Nat) (sep2 : List UChar) (neg : Bool) (v : Nat) (c : UChar)
    (t : List UChar) (h2 : IsSeparator sep2) (hc : isDigit c = false)
    (hv : v ≤ if neg then 2 ^ 31 else 2 ^ 31 - 1) (hne : maxValue neg v ≠ 255) :
    readBody w h (sep2 ++ (maxField neg v ++ c :: t)) = .error .fatal := by
  have hs : skipSpace (sep2 ++ (maxField neg v ++ c :: t)) = maxField neg v ++ c :: t := by
    rw [skipSpace_separator sep2 h2.2, maxField_skipSpace]
  unfold readBody
  rw [scanInt_field _ neg v c t hs hc]
  cases neg with
  | true =>
    simp only [if_true] at hv ⊢
    rw [if_neg (by omega)]
    have hne' : (-(v : Int)) ≠ ((RGB_COMPONENT_COLOR : Nat) : Int) := by
      unfold RGB_COMPONENT_COLOR
      omega
    simp only [bind, Except.bind, throw, throwThe, MonadExceptOf.throw, hne', ne_eq,
      not_false_eq_true, if_true]
  | false =>
    simp only [Bool.false_eq_true, if_false] at hv ⊢
    rw [if_neg (by omega)]
    have hne' : ((v : Int)) ≠ ((RGB_COMPONENT_COLOR : Nat) : Int) := by
      unfold maxValue at hne
      simp only [Bool.false_eq_true, if_false] at hne
      unfold RGB_COMPONENT_COLOR
      exact hne
    simp only [bind, Except.bind, throw, throwThe, MonadExceptOf.throw, hne', ne_eq,
      not_false_eq_true, if_true]

theorem workersFrom_eq (N w h : Nat) (hh : h < 2 ^ 31) :
    ∀ n i, i + n ≤ N →
      Pthreads.workersFrom N w h ((h / N : Nat) : Int) i n
        = some ((List.range' i n).map (blockOf N w h)) := by
  intro n
  induction n with
  | zero => intro i _; rfl
  | succ k ih =>
    intro i hi
    rw [Pthreads.workersFrom, mkParameter_eq N w h i hh (by omega), Option.some_bind,
      ih (i + 1) (by omega)]
    rfl

theorem workers_eq (N w h : Nat) (hN : 0 < N) (hh : h < 2 ^ 31) :
    Pthreads.workers N w h = some ((List.range' 0 N).map (blockOf N w h)) := by
  unfold Pthreads.workers
  rw [workOf_eq N h hN hh, Option.some_bind, workersFrom_eq N w h hh N 0 (by omega)]

theorem blockOf_le (N w h i : Nat) (hi : i < N) :
    (blockOf N w h i).start + (blockOf N w h i).size ≤ h := by
  have h1 : (i + 1) * (h / N) ≤ h := (Nat.mul_le_mul_right _ hi).trans (Nat.mul_div_le h N)
  rw [Nat.add_mul, Nat.one_mul] at h1
  have hk0 : 0 ≤ h / N := Nat.zero_le _
  unfold blockOf
  simp only
  split <;> omega

theorem runWorkers_paint {img : List PPMPixel} {w h : Nat} {r0 : List PPMPixel} (d : Dims w h)
    (hi : img.length = w * h) (hr : r0.length = w * h) :
    ∀ (qs : List Pthreads.parameter) (done : Nat → Nat → Prop) (m : Mem),
      (∀ q ∈ qs, q.w = w ∧ q.h = h ∧ q.start + q.size ≤ h) →
      Painted img w h r0 done m →
      ∃ m', Pthreads.runWorkers qs m = some m' ∧
        Painted img w h r0 (fun x' y' => done x' y' ∨ ∃ q ∈ qs, owns q y') m' := by
  intro qs
  induction qs with
  | nil =>
    intro done m _ hP
    refine ⟨m, rfl, hP.congr d.wpos (fun x' y' _ => ?_)⟩
    simp
  | cons q qs ih =>
    intro done m hq hP
    obtain ⟨hqw, hqh, hqle⟩ := hq q (List.mem_cons_self _ _)
    obtain ⟨t, ht, hPt⟩ := function_paint d hi hr hP q.start q.size hqle
    have hq' : q = { w := w, h := h, start := q.start, size := q.size } := by
      cases q
      simp only at hqw hqh
      subst hqw
      subst hqh
      rfl
    rw [← hq'] at ht
    obtain ⟨m', hm', hP'⟩ := ih _ t (fun p hp => hq p (List.mem_cons_of_mem _ hp)) hPt
    refine ⟨m', ?_, hP'.congr d.wpos (fun x' y' _ => ?_)⟩
    · rw [Pthreads.runWorkers, ht, Option.some_bind, hm']
    · constructor
      · rintro ((hd | hd) | ⟨p, hp, ho⟩)
        · exact Or.inl hd
        · exact Or.inr ⟨q, List.mem_cons_self _ _, hd⟩
        · exact Or.inr ⟨p, List.mem_cons_of_mem _ hp, ho⟩
      · rintro (hd | ⟨p, hp, ho⟩)
        · exact Or.inl (Or.inl hd)
        · rcases List.mem_cons.mp hp with e | hp'
          · subst e
            exact Or.inl (Or.inr ho)
          · exact Or.inr ⟨p, hp', ho⟩

theorem pixel_wide_none (s : Mem) (hs : s.image.length = 2 ^ 31 + 1) :
    pixelBody (2 ^ 31 + 1) 1 (2 ^ 31) 0 s = none := by
  have hstep : ∀ a : Acc, filterStep s (2 ^ 31 + 1) 1 (2 ^ 31) 0 0 1 a = none := by
    intro a
    have e1 : imageCoord (2 ^ 31) filterWidth 1 (2 ^ 31 + 1) = some (-2147483648) := by decide
    have e2 : imageCoord 0 filterHeight 0 1 = some 0 := by decide
    have e3 : imageIndex (-2147483648) 0 (2 ^ 31 + 1) = 18446744071562067968 := by decide
    unfold filterStep
    rw [e1, e2]
    simp only [Option.bind_eq_bind, Option.some_bind]
    rw [e3, List.getElem?_eq_none (by rw [hs]; decide)]
    rfl
  have hacc : accumulate s (2 ^ 31 + 1) 1 (2 ^ 31) 0 = none := by
    unfold accumulate forLoop filterHeight filterWidth
    simp only [forLoopN, Nat.sub_zero, Nat.reduceAdd]
    cases h0 : filterStep s (2 ^ 31 + 1) 1 (2 ^ 31) 0 0 0 { red := 0, green := 0, blue := 0 } with
    | none => rfl
    | some a => simp only [Option.some_bind, hstep a, Option.none_bind]
  unfold pixelBody
  rw [hacc]
  rfl

theorem rows_wide_none (image : List PPMPixel) (hlen : image.length = 2 ^ 31 + 1) (m : Mem)
    (hm : m.image = image) :
    forLoopN (fun x => forLoopN (fun y => pixelBody (2 ^ 31 + 1) 1 x y) 0 1) 0 (2 ^ 31 + 1) m
      = none :=
  forLoopN_none _ (fun s : Mem => s.image = image) (2 ^ 31)
    (fun x s s' hs hb => (column_image _ _ x 0 _ s s' hb).trans hs)
    (fun s hs => by
      simp only [forLoopN]
      rw [pixel_wide_none s (by rw [hs]; exact hlen)]
      rfl)
    _ 0 m (Nat.zero_le _) (by decide) hm

theorem serial_wide_none (image fresh : List PPMPixel) (hlen : image.length = 2 ^ 31 + 1) :
    Serial.apply_filters image (2 ^ 31 + 1) 1 fresh = none := by
  unfold Serial.apply_filters forLoop
  simp only [Nat.sub_zero]
  rw [rows_wide_none image hlen _ rfl]
  rfl

theorem function_wide_none (image : List PPMPixel) (hlen : image.length = 2 ^ 31 + 1) (m : Mem)
    (hm : m.image = image) :
    Pthreads.function { w := 2 ^ 31 + 1, h := 1, start := 0, size := 1 } m = none := by
  have hu : uadd 0 1 = 1 := by decide
  unfold Pthreads.function forLoop
  simp only [hu, Nat.sub_zero]
  exact rows_wide_none image hlen m hm

theorem forLoopN_skip {σ : Type} (body : Nat → σ → Option σ) (hb : ∀ i s, body i s = some s) :
    ∀ (n lo : Nat) (s : σ), forLoopN body lo n s = some s := by
  intro n
  induction n with
  | zero => intro lo s; rfl
  | succ k ih =>
    intro lo s
    rw [forLoopN, hb lo s, Option.some_bind]
    exact ih (lo + 1) s

theorem function_empty (w h : Nat) (m : Mem) :
    Pthreads.function { w := w, h := h, start := 0, size := 0 } m = some m := by
  have hu : uadd 0 0 = 0 := by decide
  unfold Pthreads.function forLoop
  simp only [hu, Nat.sub_zero]
  exact forLoopN_skip _ (fun _ _ => rfl) w 0 m

theorem natCast_emod_toNat (z : Int) (n : Nat) (hn : 0 < n) :
    (((z % (n : Int)).toNat : Nat) : Int) = z % (n : Int) :=
  Int.toNat_of_nonneg (Int.emod_nonneg _ (by omega))

theorem shiftCoord_lt (c : Nat) (a : Int) (n : Nat) (hn : 0 < n) : shiftCoord c a n < n := by
  have h1 := natCast_emod_toNat ((c : Int) + a) n hn
  have h2 : ((c : Int) + a) % (n : Int) < (n : Int) := Int.emod_lt_of_pos _ (by omega)
  unfold shiftCoord
  omega

theorem shift_wrap_comm (x fx n : Nat) (a : Int) (hn : 0 < n) :
    shiftCoord (wrapCoord x fx n) a n = wrapCoord (shiftCoord x a n) fx n := by
  unfold shiftCoord wrapCoord
  rw [natCast_emod_toNat _ n hn, natCast_emod_toNat _ n hn]
  congr 1
  have e1 : ((x : Int) + a) % (n : Int) - 1 + (fx : Int)
      = ((x : Int) + a) % (n : Int) + ((fx : Int) - 1) := by ring
  rw [e1, Int.emod_add_emod, Int.emod_add_emod]
  congr 1
  ring

theorem shiftImage_length (img : List PPMPixel) (w h : Nat) (a b : Int) :
    (shiftImage img w h a b).length = w * h := by
  unfold shiftImage
  rw [List.length_map, List.length_range]

theorem shiftImage_getElem? (img : List PPMPixel) (w h : Nat) (a b : Int) (x y : Nat)
    (hx : x < w) (hy : y < h) :
    (shiftImage img w h a b)[y * w + x]?
      = some (img.getD (shiftCoord y b h * w + shiftCoord x a w) black) := by
  have hw : 0 < w := by omega
  have hq : (y * w + x) / w = y := by
    rw [Nat.add_comm, Nat.add_mul_div_right _ _ hw, Nat.div_eq_of_lt hx, Nat.zero_add]
  have hm : (y * w + x) % w = x := by
    rw [Nat.add_comm, Nat.add_mul_mod_self_right, Nat.mod_eq_of_lt hx]
  unfold shiftImage
  rw [List.getElem?_map, List.getElem?_range (index_lt x y w h hx hy), Option.map_some', hq, hm]

theorem sourceAt_shift (img : List PPMPixel) (w h x y fy fx : Nat) (a b : Int) (hw : 0 < w)
    (hh : 0 < h) :
    sourceAt (shiftImage img w h a b) w h x y fy fx
      = sourceAt img w h (shiftCoord x a w) (shiftCoord y b h) fy fx := by
  unfold sourceAt
  rw [List.getD_eq_getElem?_getD,
    shiftImage_getElem? img w h a b _ _ (wrapCoord_lt x fx w hw) (wrapCoord_lt y fy h hh),
    Option.getD_some, shift_wrap_comm x fx w a hw, shift_wrap_comm y fy h b hh]

theorem filteredPixel_shift (img : List PPMPixel) (w h x y : Nat) (a b : Int) (hw : 0 < w)
    (hh : 0 < h) :
    filteredPixel (shiftImage img w h a b) w h x y
      = filteredPixel img w h (shiftCoord x a w) (shiftCoord y b h) := by
  unfold filteredPixel weightedSum
  simp only [sourceAt_shift img w h x y _ _ a b hw hh]

theorem filtered_shift (img : List PPMPixel) (w h : Nat) (a b : Int) (hw : 0 < w) (hh : 0 < h) :
    filtered (shiftImage img w h a b) w h = shiftImage (filtered img w h) w h a b := by
  unfold filtered shiftImage
  apply List.map_congr_left
  intro idx _
  have hsx := shiftCoord_lt (idx % w) a w hw
  have hsy := shiftCoord_lt (idx / w) b h hh
  have hf := filtered_getElem? img w h _ _ hsx hsy
  unfold filtered at hf
  have hs := filteredPixel_shift img w h (idx % w) (idx / w) a b hw hh
  unfold shiftImage at hs
  rw [hs, List.getD_eq_getElem?_getD, hf, Option.getD_some]

theorem weightedSum_agree (chan : PPMPixel → UChar) (img1 img2 : List PPMPixel) (w h x y : Nat)
    (d : Dims w h) (h1 : img1.length = w * h) (h2 : img2.length = w * h)
    (hag : ∀ idx, idx < w * h → (img1[idx]?).map chan = (img2[idx]?).map chan) :
    weightedSum chan img1 w h x y = weightedSum chan img2 w h x y := by
  have hs : ∀ fy fx, chan (sourceAt img1 w h x y fy fx) = chan (sourceAt img2 w h x y fy fx) := by
    intro fy fx
    have hidx := index_lt _ _ w h (wrapCoord_lt x fx w d.wpos) (wrapCoord_lt y fy h d.hpos)
    have e := hag _ hidx
    rw [List.getElem?_eq_getElem (by omega), List.getElem?_eq_getElem (by omega),
      Option.map_some', Option.map_some', Option.some.injEq] at e
    unfold sourceAt
    rw [List.getD_eq_getElem?_getD, List.getD_eq_getElem?_getD,
      List.getElem?_eq_getElem (by omega), List.getElem?_eq_getElem (by omega),
      Option.getD_some, Option.getD_some]
    exact e
  unfold weightedSum
  simp only [hs]

theorem filtered_agree (chan : PPMPixel → UChar)
    (hchan : chan = PPMPixel.r ∨ chan = PPMPixel.g ∨ chan = PPMPixel.b)
    (img1 img2 : List PPMPixel) (w h : Nat) (d : Dims w h) (h1 : img1.length = w * h)
    (h2 : img2.length = w * h)
    (hag : ∀ idx, idx < w * h → (img1[idx]?).map chan = (img2[idx]?).map chan) :
    (filtered img1 w h).map chan = (filtered img2 w h).map chan := by
  unfold filtered
  rw [List.map_map, List.map_map]
  apply List.map_congr_left
  intro idx _
  have e := weightedSum_agree chan img1 img2 w h (idx % w) (idx / w) d h1 h2 hag
  rcases hchan with rfl | rfl | rfl
  · show clampInt _ = clampInt _
    rw [e]
  · show clampInt _ = clampInt _
    rw [e]
  · show clampInt _ = clampInt _
    rw [e]

/-! ## The claims -/

/-- Claim C1, partition invariance: for an image of dimensions `w x h` with
`1 ≤ w, h < 2 ^ 31` and any worker count `N ≥ 1`, the serial `apply_filters` and the parallel
`apply_filters` (its `N` workers run over their row ranges) both return, and they return the
same destination buffer of `w * h` pixels, whatever the two freshly allocated blocks held. -/
theorem partition_invariance (N : Nat) (image : List PPMPixel) (w h : Nat)
    (fresh fresh' : List PPMPixel) (hN : 1 ≤ N) (hw : 1 ≤ w) (hw2 : w < 2 ^ 31) (hh : 1 ≤ h)
    (hh2 : h < 2 ^ 31) (hi : image.length = w * h) (hf : fresh.length = w * h)
    (hf' : fresh'.length = w * h) :
    ∃ out, Serial.apply_filters image w h fresh = some out ∧
      Pthreads.apply_filters N image w h fresh' = some out ∧ out.length = w * h := by
  have d : Dims w h := ⟨hw, hh, hw2, hh2⟩
  refine ⟨filtered image w h, serial_eq image w h fresh d hi hf,
    parallel_eq N image w h fresh' hN d hi hf', ?_⟩
  unfold filtered
  rw [List.length_map, List.length_range]

theorem partition_invariance_witness :
    ∃ out, Serial.apply_filters cornerImage 3 3 (List.replicate 9 black) = some out ∧
      Pthreads.apply_filters 4 cornerImage 3 3 (List.replicate 9 { r := 1, g := 2, b := 3 })
        = some out ∧ out.length = 3 * 3 :=
  partition_invariance 4 cornerImage 3 3 _ _ (by decide) (by decide) (by decide) (by decide)
    (by decide) (by decide) (by decide) (by decide)

/-- Claim C2, serial reference correctness: for `1 ≤ w, h < 2 ^ 31`, `x < w` and `y < h` the
serial `apply_filters` returns a buffer whose pixel `y * w + x` holds, in every channel, the
clamped sum over the 3x3 kernel of the source pixels at the coordinates wrapped with the
mathematical modulus; and the 64-bit unsigned expression of the code for `imageX` and
`imageY` equals `(x - 1 + filterX) mod w` and `(y - 1 + filterY) mod h`, also for `x = 0` and
`y = 0`. -/
theorem serial_reference (image : List PPMPixel) (w h : Nat) (fresh : List PPMPixel)
    (x y : Nat) (hw : 1 ≤ w) (hw2 : w < 2 ^ 31) (hh : 1 ≤ h) (hh2 : h < 2 ^ 31)
    (hi : image.length = w * h) (hf : fresh.length = w * h) (hx : x < w) (hy : y < h) :
    (∃ out, Serial.apply_filters image w h fresh = some out ∧
      out[y * w + x]? = some
        { r := clampInt (weightedSum PPMPixel.r image w h x y)
          g := clampInt (weightedSum PPMPixel.g image w h x y)
          b := clampInt (weightedSum PPMPixel.b image w h x y) }) ∧
    (∀ filterX, filterX < filterWidth →
      imageCoord x filterWidth filterX w
        = some (((x : Int) - 1 + (filterX : Int)) % (w : Int))) ∧
    (∀ filterY, filterY < filterHeight →
      imageCoord y filterHeight filterY h
        = some (((y : Int) - 1 + (filterY : Int)) % (h : Int))) := by
  have d : Dims w h := ⟨hw, hh, hw2, hh2⟩
  have hc : ∀ c f n : Nat, 0 < n → ((wrapCoord c f n : Nat) : Int)
      = ((c : Int) - 1 + (f : Int)) % (n : Int) := by
    intro c f n hn
    unfold wrapCoord
    exact Int.toNat_of_nonneg (Int.emod_nonneg _ (by omega))
  refine ⟨⟨filtered image w h, serial_eq image w h fresh d hi hf,
    filtered_getElem? image w h x y hx hy⟩, ?_, ?_⟩
  · intro fx hfx
    rw [← hc x fx w hw]
    exact imageCoord_eq x fx w hw hw2 hx hfx
  · intro fy hfy
    rw [← hc y fy h hh]
    exact imageCoord_eq y fy h hh hh2 hy hfy

theorem serial_reference_witness :
    ∃ out, Serial.apply_filters cornerImage 3 3 (List.replicate 9 black) = some out ∧
      out[0 * 3 + 0]? = some
        { r := clampInt (weightedSum PPMPixel.r cornerImage 3 3 0 0)
          g := clampInt (weightedSum PPMPixel.g cornerImage 3 3 0 0)
          b := clampInt (weightedSum PPMPixel.b cornerImage 3 3 0 0) } :=
  (serial_reference cornerImage 3 3 (List.replicate 9 black) 0 0 (by decide) (by decide)
    (by decide) (by decide) (by decide) (by decide) (by decide) (by decide)).1

/-- Claim C3, clamping: for an accumulated value `v` in the range of `int`, the clamp of the
code (truncate to `int`, compare, convert to `unsigned char`) stores the byte of the
specification (compare, then truncate): `0` for `v < 0`, `255` for `v > 255`, and otherwise
the integer `n` with `n ≤ v < n + 1`; the value `17.9` is stored as `17`. -/
theorem clamping (v : ℚ) (h1 : -2 ^ 31 - 1 < v) (h2 : v < 2 ^ 31) :
    clampChannel (laplacian_factor * v) = some (clampSpec v) ∧
    (v < 0 → clampChannel (laplacian_factor * v) = some 0) ∧
    (v > 255 → clampChannel (laplacian_factor * v) = some 255) ∧
    (0 ≤ v → v ≤ 255 → ∃ n : Nat, n ≤ 255 ∧ (n : ℚ) ≤ v ∧ v < (n : ℚ) + 1 ∧
      clampChannel (laplacian_factor * v) = some (Fin.ofNat n)) ∧
    clampChannel (laplacian_factor * (179 / 10)) = some 17 := by
  have e : laplacian_factor * v = v := by
    unfold laplacian_factor
    exact one_mul v
  rw [e, clampChannel_eq_spec v h1 h2]
  refine ⟨rfl, ?_, ?_, ?_, ?_⟩
  · intro hv
    unfold clampSpec
    rw [if_pos hv]
  · intro hv
    unfold clampSpec
    rw [if_neg (by linarith), if_pos hv]
  · intro hv0 hv1
    refine ⟨⌊v⌋.toNat, ?_, ?_, ?_, ?_⟩
    · have : ⌊v⌋ < (256 : Int) := by
        rw [Int.floor_lt]
        push_cast
        linarith
      omega
    · have h3 : (0 : Int) ≤ ⌊v⌋ := Int.floor_nonneg.mpr hv0
      have h4 : ((⌊v⌋.toNat : Int) : ℚ) = ((⌊v⌋ : Int) : ℚ) := by rw [Int.toNat_of_nonneg h3]
      have h5 : ((⌊v⌋.toNat : Nat) : ℚ) = ((⌊v⌋ : Int) : ℚ) := by exact_mod_cast h4
      rw [h5]
      exact Int.floor_le v
    · have h3 : (0 : Int) ≤ ⌊v⌋ := Int.floor_nonneg.mpr hv0
      have h4 : ((⌊v⌋.toNat : Int) : ℚ) = ((⌊v⌋ : Int) : ℚ) := by rw [Int.toNat_of_nonneg h3]
      have h5 : ((⌊v⌋.toNat : Nat) : ℚ) = ((⌊v⌋ : Int) : ℚ) := by exact_mod_cast h4
      rw [h5]
      exact Int.lt_floor_add_one v
    · unfold clampSpec truncate
      rw [if_neg (not_lt.mpr hv0), if_neg (not_lt.mpr hv1), if_pos hv0]
  · have e2 : laplacian_factor * (179 / 10 : ℚ) = 179 / 10 := by
      unfold laplacian_factor
      exact one_mul _
    rw [e2, clampChannel_eq_spec _ (by norm_num) (by norm_num)]
    unfold clampSpec truncate
    rw [if_neg (by norm_num), if_neg (by norm_num), if_pos (by norm_num)]
    have : ⌊(179 / 10 : ℚ)⌋ = 17 := by
      rw [Int.floor_eq_iff]
      constructor <;> norm_num
    rw [this]
    rfl

theorem clamping_witness :
    clampChannel (laplacian_factor * (-1 / 2)) = some 0 ∧
    clampChannel (laplacian_factor * (511 / 2)) = some 255 :=
  ⟨(clamping (-1 / 2) (by norm_num) (by norm_num)).2.1 (by norm_num),
   (clamping (511 / 2) (by norm_num) (by norm_num)).2.2.1 (by norm_num)⟩

/-- Claim C4, disjointness and exact cover: for `h < 2 ^ 31` and `N ≥ 1` workers, the creation
loop of the parallel `apply_filters` computes `work` and a parameter block for every worker;
every range lies inside `[0, h)`, and every row `y < h` is owned by exactly one worker. -/
theorem disjoint_exact_cover (N w h : Nat) (hN : 1 ≤ N) (hh : h < 2 ^ 31) :
    ∃ work, Pthreads.workOf N h = some work ∧
      (∀ i, i < N → ∃ p, Pthreads.mkParameter N w h work i = some p ∧
        p.start + p.size ≤ h ∧ uadd p.start p.size = p.start + p.size) ∧
      (∀ y, y < h → ∃ i, i < N ∧
        (∃ p, Pthreads.mkParameter N w h work i = some p ∧ owns p y) ∧
        ∀ j, j < N → (∃ q, Pthreads.mkParameter N w h work j = some q ∧ owns q y) → j = i) ∧
      (∀ i p y, i < N → Pthreads.mkParameter N w h work i = some p → owns p y → y < h) := by
  have hk : (N - 1) * (h / N) ≤ h :=
    (Nat.mul_le_mul_right _ (Nat.sub_le N 1)).trans (Nat.mul_div_le h N)
  have hrange : ∀ i, i < N → i * (h / N) + (if i = N - 1 then h - i * (h / N) else h / N) ≤ h := by
    intro i hi
    have h1 : (i + 1) * (h / N) ≤ h := (Nat.mul_le_mul_right _ hi).trans (Nat.mul_div_le h N)
    rw [Nat.add_mul, Nat.one_mul] at h1
    have hk0 : 0 ≤ h / N := Nat.zero_le _
    split <;> omega
  refine ⟨((h / N : Nat) : Int), workOf_eq N h hN hh, ?_, ?_, ?_⟩
  · intro i hi
    refine ⟨_, mkParameter_eq N w h i hh hi, hrange i hi, ?_⟩
    have := hrange i hi
    unfold uadd
    simp only
    omega
  · intro y hy
    obtain ⟨i, hi, h1, h2⟩ := range_exists N (h / N) h y hN hk hy
    refine ⟨i, hi, ⟨_, mkParameter_eq N w h i hh hi, h1, h2⟩, ?_⟩
    rintro j hj ⟨q, hq, hq1, hq2⟩
    rw [mkParameter_eq N w h j hh hj] at hq
    cases hq
    exact range_unique N (h / N) h j i y hj hi ⟨hq1, hq2⟩ ⟨h1, h2⟩
  · rintro i p y hi hp ⟨hp1, hp2⟩
    rw [mkParameter_eq N w h i hh hi] at hp
    cases hp
    have := hrange i hi
    simp only at hp2
    omega

theorem disjoint_exact_cover_witness :
    ∃ work, Pthreads.workOf 4 10 = some work ∧
      (∀ i, i < 4 → ∃ p, Pthreads.mkParameter 4 3 10 work i = some p ∧
        p.start + p.size ≤ 10 ∧ uadd p.start p.size = p.start + p.size) ∧
      (∀ y, y < 10 → ∃ i, i < 4 ∧
        (∃ p, Pthreads.mkParameter 4 3 10 work i = some p ∧ owns p y) ∧
        ∀ j, j < 4 → (∃ q, Pthreads.mkParameter 4 3 10 work j = some q ∧ owns q y) → j = i) ∧
      (∀ i p y, i < 4 → Pthreads.mkParameter 4 3 10 work i = some p → owns p y → y < 10) :=
  disjoint_exact_cover 4 3 10 (by decide) (by decide)

/-- Claim C5 as amended, zero-sum kernel on uniform images: for `1 ≤ w, h < 2 ^ 31` and an image
whose pixels all equal `(v, v, v)`, the serial `apply_filters` and the parallel `apply_filters`
(any worker count `N ≥ 1`) both return the buffer of `w * h` pixels `(0, 0, 0)`. -/
theorem uniform_zero (N w h : Nat) (v : UChar) (image fresh fresh' : List PPMPixel)
    (hN : 1 ≤ N) (hw : 1 ≤ w) (hw2 : w < 2 ^ 31) (hh : 1 ≤ h) (hh2 : h < 2 ^ 31)
    (hi : image.length = w * h) (hf : fresh.length = w * h) (hf' : fresh'.length = w * h)
    (hu : ∀ p ∈ image, p = { r := v, g := v, b := v }) :
    Serial.apply_filters image w h fresh
        = some (List.replicate (w * h) { r := 0, g := 0, b := 0 }) ∧
    Pthreads.apply_filters N image w h fresh'
        = some (List.replicate (w * h) { r := 0, g := 0, b := 0 }) := by
  have d : Dims w h := ⟨hw, hh, hw2, hh2⟩
  rw [serial_eq image w h fresh d hi hf, parallel_eq N image w h fresh' hN d hi hf',
    filtered_uniform image w h v d hi hu]
  exact ⟨rfl, rfl⟩

theorem uniform_zero_witness :
    Serial.apply_filters (List.replicate 16 { r := 50, g := 50, b := 50 }) 4 4
        (List.replicate 16 { r := 9, g := 8, b := 7 })
      = some (List.replicate (4 * 4) { r := 0, g := 0, b := 0 }) ∧
    Pthreads.apply_filters 4 (List.replicate 16 { r := 50, g := 50, b := 50 }) 4 4
        (List.replicate 16 { r := 1, g := 2, b := 3 })
      = some (List.replicate (4 * 4) { r := 0, g := 0, b := 0 }) :=
  uniform_zero 4 4 4 50 _ _ _ (by decide) (by decide) (by decide) (by decide) (by decide)
    (by decide) (by decide) (by decide) (by decide)

/-- Claim C5 as stated fails for a wide image: on the uniform image of width `2 ^ 31 + 1` and
height `1`, at `x = 2 ^ 31` the value of `imageX` does not fit `int`, the source index leaves
the buffer and the serial `apply_filters` has no defined result. -/
theorem uniform_wide_undefined :
    Serial.apply_filters (List.replicate (2 ^ 31 + 1) { r := 50, g := 50, b := 50 })
      (2 ^ 31 + 1) 1 (List.replicate (2 ^ 31 + 1) { r := 0, g := 0, b := 0 }) = none := by
  have hstep : ∀ (s : Mem) (a : Acc),
      s.image = List.replicate (2 ^ 31 + 1) { r := 50, g := 50, b := 50 } →
      filterStep s (2 ^ 31 + 1) 1 (2 ^ 31) 0 0 1 a = none := by
    intro s a hs
    have e1 : imageCoord (2 ^ 31) filterWidth 1 (2 ^ 31 + 1) = some (-2147483648) := by decide
    have e2 : imageCoord 0 filterHeight 0 1 = some 0 := by decide
    have e3 : imageIndex (-2147483648) 0 (2 ^ 31 + 1) = 18446744071562067968 := by decide
    unfold filterStep
    rw [e1, e2]
    simp only [Option.bind_eq_bind, Option.some_bind]
    rw [e3, hs, List.getElem?_eq_none (by rw [List.length_replicate]; decide)]
    rfl
  have hbody : ∀ s : Mem,
      s.image = List.replicate (2 ^ 31 + 1) { r := 50, g := 50, b := 50 } →
      forLoop 0 1 (fun y => pixelBody (2 ^ 31 + 1) 1 (2 ^ 31) y) s = none := by
    intro s hs
    unfold forLoop
    simp only [forLoopN, Nat.sub_zero]
    have : accumulate s (2 ^ 31 + 1) 1 (2 ^ 31) 0 = none := by
      unfold accumulate forLoop filterHeight filterWidth
      simp only [forLoopN, Nat.sub_zero, Nat.reduceAdd]
      cases h0 : filterStep s (2 ^ 31 + 1) 1 (2 ^ 31) 0 0 0 { red := 0, green := 0, blue := 0 } with
      | none => rfl
      | some a =>
        simp only [Option.some_bind, hstep s a hs, Option.none_bind]
    unfold pixelBody
    rw [this]
    rfl
  unfold Serial.apply_filters forLoop
  rw [forLoopN_none _ (fun s : Mem => s.image = List.replicate (2 ^ 31 + 1) { r := 50, g := 50, b := 50 })
    (2 ^ 31) (fun x s s' hs hb => (column_image _ _ x 0 _ s s' hb).trans hs) hbody
    _ 0 _ (Nat.zero_le _) (by decide) rfl]
  rfl

/-- Claim C6, the concrete 3x3 case: on the image with `(255,255,255)` at `(0,0)` and black
elsewhere, the serial and the parallel `apply_filters` return the same buffer; it has
`(0,0,0)` at the centre `(1,1)`, where the accumulated sums are `-255`, and `(255,255,255)`
at `(0,0)`, where the accumulated sums are `2040`. -/
theorem concrete_corner_case (N : Nat) (fresh fresh' : List PPMPixel) (hN : 1 ≤ N)
    (hf : fresh.length = 9) (hf' : fresh'.length = 9) :
    ∃ out, Serial.apply_filters cornerImage 3 3 fresh = some out ∧
      Pthreads.apply_filters N cornerImage 3 3 fresh' = some out ∧
      out[1 * 3 + 1]? = some { r := 0, g := 0, b := 0 } ∧
      out[0 * 3 + 0]? = some { r := 255, g := 255, b := 255 } ∧
      accumulate { image := cornerImage, result := fresh } 3 3 1 1
        = some { red := -255, green := -255, blue := -255 } ∧
      accumulate { image := cornerImage, result := fresh } 3 3 0 0
        = some { red := 2040, green := 2040, blue := 2040 } := by
  have d : Dims 3 3 := ⟨by decide, by decide, by decide, by decide⟩
  have hi : cornerImage.length = 3 * 3 := by decide
  refine ⟨filtered cornerImage 3 3, serial_eq cornerImage 3 3 fresh d hi hf,
    parallel_eq N cornerImage 3 3 fresh' hN d hi hf', by decide, by decide, ?_, ?_⟩
  · rw [accumulate_eq _ 3 3 1 1 d hi (by decide) (by decide)]
    have e1 : weightedSum PPMPixel.r cornerImage 3 3 1 1 = -255 := by decide
    have e2 : weightedSum PPMPixel.g cornerImage 3 3 1 1 = -255 := by decide
    have e3 : weightedSum PPMPixel.b cornerImage 3 3 1 1 = -255 := by decide
    simp only [e1, e2, e3]
    norm_num
  · rw [accumulate_eq _ 3 3 0 0 d hi (by decide) (by decide)]
    have e1 : weightedSum PPMPixel.r cornerImage 3 3 0 0 = 2040 := by decide
    have e2 : weightedSum PPMPixel.g cornerImage 3 3 0 0 = 2040 := by decide
    have e3 : weightedSum PPMPixel.b cornerImage 3 3 0 0 = 2040 := by decide
    simp only [e1, e2, e3]
    norm_num

theorem concrete_corner_case_witness :
    ∃ out, Serial.apply_filters cornerImage 3 3 (List.replicate 9 black) = some out ∧
      Pthreads.apply_filters 4 cornerImage 3 3 (List.replicate 9 black) = some out ∧
      out[1 * 3 + 1]? = some { r := 0, g := 0, b := 0 } ∧
      out[0 * 3 + 0]? = some { r := 255, g := 255, b := 255 } ∧
      accumulate { image := cornerImage, result := List.replicate 9 black } 3 3 1 1
        = some { red := -255, green := -255, blue := -255 } ∧
      accumulate { image := cornerImage, result := List.replicate 9 black } 3 3 0 0
        = some { red := 2040, green := 2040, blue := 2040 } :=
  concrete_corner_case 4 (List.replicate 9 black) (List.replicate 9 black) (by decide)
    (by decide) (by decide)

/-- Claim C7 as amended, toroidal coverage at the corners: for `3 ≤ w, h < 2 ^ 31` the
coordinates sampled for the corner `(0,0)` are `w - 1, 0, 1` and `h - 1, 0, 1`, those sampled
for `(w - 1, h - 1)` are `w - 2, w - 1, 0` and `h - 2, h - 1, 0`; the source index
`imageY * w + imageX` is inside the buffer and differs for different coordinates, so the nine
samples are nine distinct pixels; the first sample of `(0,0)` is the pixel
`(w - 1, h - 1)` and the last sample of `(w - 1, h - 1)` is the pixel `(0,0)`. -/
theorem toroidal_corners (w h : Nat) (hw : 3 ≤ w) (hw2 : w < 2 ^ 31) (hh : 3 ≤ h)
    (hh2 : h < 2 ^ 31) :
    (imageCoord 0 filterWidth 0 w = some ((w - 1 : Nat) : Int) ∧
      imageCoord 0 filterWidth 1 w = some ((0 : Nat) : Int) ∧
      imageCoord 0 filterWidth 2 w = some ((1 : Nat) : Int)) ∧
    (imageCoord 0 filterHeight 0 h = some ((h - 1 : Nat) : Int) ∧
      imageCoord 0 filterHeight 1 h = some ((0 : Nat) : Int) ∧
      imageCoord 0 filterHeight 2 h = some ((1 : Nat) : Int)) ∧
    (imageCoord (w - 1) filterWidth 0 w = some ((w - 2 : Nat) : Int) ∧
      imageCoord (w - 1) filterWidth 1 w = some ((w - 1 : Nat) : Int) ∧
      imageCoord (w - 1) filterWidth 2 w = some ((0 : Nat) : Int)) ∧
    (imageCoord (h - 1) filterHeight 0 h = some ((h - 2 : Nat) : Int) ∧
      imageCoord (h - 1) filterHeight 1 h = some ((h - 1 : Nat) : Int) ∧
      imageCoord (h - 1) filterHeight 2 h = some ((0 : Nat) : Int)) ∧
    (∀ cx cy, cx < w → cy < h →
      imageIndex (cx : Int) (cy : Int) w = cy * w + cx ∧ cy * w + cx < w * h) ∧
    (∀ cx cy cx' cy', cx < w → cy < h → cx' < w → cy' < h →
      imageIndex (cx : Int) (cy : Int) w = imageIndex (cx' : Int) (cy' : Int) w →
      cx = cx' ∧ cy = cy') ∧
    (∀ (m : Mem) (a : Acc), m.image.length = w * h →
      (∃ px, m.image[(h - 1) * w + (w - 1)]? = some px ∧
        filterStep m w h 0 0 0 0 a = some
          { red := a.red + ((px.r.val : Int) : ℚ) * laplacian 0 0
            green := a.green + ((px.g.val : Int) : ℚ) * laplacian 0 0
            blue := a.blue + ((px.b.val : Int) : ℚ) * laplacian 0 0 }) ∧
      (∃ px, m.image[0 * w + 0]? = some px ∧
        filterStep m w h (w - 1) (h - 1) 2 2 a = some
          { red := a.red + ((px.r.val : Int) : ℚ) * laplacian 2 2
            green := a.green + ((px.g.val : Int) : ℚ) * laplacian 2 2
            blue := a.blue + ((px.b.val : Int) : ℚ) * laplacian 2 2 })) := by
  have d : Dims w h := ⟨by omega, by omega, hw2, hh2⟩
  have hsample : ∀ (m : Mem) (a : Acc) (x y fy fx : Nat), m.image.length = w * h → x < w →
      y < h → fy < 3 → fx < 3 →
      ∃ px, m.image[wrapCoord y fy h * w + wrapCoord x fx w]? = some px ∧
        filterStep m w h x y fy fx a = some
          { red := a.red + ((px.r.val : Int) : ℚ) * laplacian fy fx
            green := a.green + ((px.g.val : Int) : ℚ) * laplacian fy fx
            blue := a.blue + ((px.b.val : Int) : ℚ) * laplacian fy fx } := by
    intro m a x y fy fx hlen hx hy hfy hfx
    refine ⟨sourceAt m.image w h x y fy fx, ?_, filterStep_eq m w h x y fy fx a d hlen hx hy hfy hfx⟩
    have hidx := index_lt _ _ w h (wrapCoord_lt x fx w d.wpos) (wrapCoord_lt y fy h d.hpos)
    unfold sourceAt
    rw [List.getD_eq_getElem?_getD, List.getElem?_eq_getElem (by omega)]
    rfl
  unfold filterWidth filterHeight
  refine ⟨⟨?_, ?_, ?_⟩, ⟨?_, ?_, ?_⟩, ⟨?_, ?_, ?_⟩, ⟨?_, ?_, ?_⟩, ?_, ?_, ?_⟩
  · exact imageCoord_val 0 0 w _ (by omega) hw2 (by omega) (by decide) (by simp)
  · exact imageCoord_val 0 1 w _ (by omega) hw2 (by omega) (by decide)
      (by rw [if_neg (by omega), if_pos (by omega)])
  · exact imageCoord_val 0 2 w _ (by omega) hw2 (by omega) (by decide)
      (by rw [if_neg (by omega), if_pos (by omega)])
  · exact imageCoord_val 0 0 h _ (by omega) hh2 (by omega) (by decide) (by simp)
  · exact imageCoord_val 0 1 h _ (by omega) hh2 (by omega) (by decide)
      (by rw [if_neg (by omega), if_pos (by omega)])
  · exact imageCoord_val 0 2 h _ (by omega) hh2 (by omega) (by decide)
      (by rw [if_neg (by omega), if_pos (by omega)])
  · exact imageCoord_val (w - 1) 0 w _ (by omega) hw2 (by omega) (by decide)
      (by rw [if_neg (by omega), if_pos (by omega)]; omega)
  · exact imageCoord_val (w - 1) 1 w _ (by omega) hw2 (by omega) (by decide)
      (by rw [if_neg (by omega), if_pos (by omega)]; omega)
  · exact imageCoord_val (w - 1) 2 w _ (by omega) hw2 (by omega) (by decide)
      (by rw [if_neg (by omega), if_neg (by omega)]; omega)
  · exact imageCoord_val (h - 1) 0 h _ (by omega) hh2 (by omega) (by decide)
      (by rw [if_neg (by omega), if_pos (by omega)]; omega)
  · exact imageCoord_val (h - 1) 1 h _ (by omega) hh2 (by omega) (by decide)
      (by rw [if_neg (by omega), if_pos (by omega)]; omega)
  · exact imageCoord_val (h - 1) 2 h _ (by omega) hh2 (by omega) (by decide)
      (by rw [if_neg (by omega), if_neg (by omega)]; omega)
  · intro cx cy hcx hcy
    exact ⟨imageIndex_eq cx cy w h hw2 hh2 hcx hcy, index_lt cx cy w h hcx hcy⟩
  · intro cx cy cx' cy' hcx hcy hcx' hcy' he
    rw [imageIndex_eq cx cy w h hw2 hh2 hcx hcy, imageIndex_eq cx' cy' w h hw2 hh2 hcx' hcy'] at he
    exact index_inj w cx cy cx' cy' hcx hcx' he
  · intro m a hlen
    constructor
    · have := hsample m a 0 0 0 0 hlen (by omega) (by omega) (by decide) (by decide)
      rw [wrapCoord_val 0 0 w (by omega) (by omega) (by decide),
        wrapCoord_val 0 0 h (by omega) (by omega) (by decide)] at this
      simpa using this
    · have := hsample m a (w - 1) (h - 1) 2 2 hlen (by omega) (by omega) (by decide) (by decide)
      rw [wrapCoord_val (w - 1) 2 w (by omega) (by omega) (by decide),
        wrapCoord_val (h - 1) 2 h (by omega) (by omega) (by decide),
        if_neg (by omega), if_neg (by omega), if_neg (by omega), if_neg (by omega)] at this
      have e1 : w - 1 + 2 - 1 - w = 0 := by omega
      have e2 : h - 1 + 2 - 1 - h = 0 := by omega
      rw [e1, e2] at this
      exact this

theorem toroidal_corners_witness :
    imageCoord 0 filterWidth 0 5 = some ((5 - 1 : Nat) : Int) ∧
    imageCoord (4 - 1) filterHeight 2 4 = some ((0 : Nat) : Int) :=
  ⟨(toroidal_corners 5 4 (by decide) (by decide) (by decide) (by decide)).1.1,
   (toroidal_corners 5 4 (by decide) (by decide) (by decide) (by decide)).2.2.2.1.2.2⟩

/-- Claim C7 as stated fails for a wide image: for `w = 2 ^ 31 + 2` and `h = 3` the first
coordinate sampled for the corner `(0,0)` is the `int` `-2147483647`, not `w - 1`, and the
source index is that of pixel `(3, 1)`, not of the opposite corner `(w - 1, h - 1)`. -/
theorem corner_sample_wraps_int :
    imageCoord 0 filterWidth 0 (2 ^ 31 + 2) = some (-2147483647) ∧
    imageCoord 0 filterWidth 0 (2 ^ 31 + 2) ≠ some ((2 ^ 31 + 2 - 1 : Nat) : Int) ∧
    imageCoord 0 filterHeight 0 3 = some 2 ∧
    imageIndex (-2147483647) 2 (2 ^ 31 + 2) = 1 * (2 ^ 31 + 2) + 3 ∧
    imageIndex (-2147483647) 2 (2 ^ 31 + 2) ≠ (3 - 1) * (2 ^ 31 + 2) + (2 ^ 31 + 2 - 1) := by
  decide

/-- Claim C8, index safety: for `1 ≤ w, h < 2 ^ 31`, a destination pixel `x < w`, `y < h` and
a kernel offset below 3, no modulus is taken by zero, `imageX` lies in `[0, w)`, `imageY` in
`[0, h)`, the read index and the write index are below `w * h`, and on buffers of `w * h`
pixels the kernel step and the whole per-pixel body shared by both engines succeed. -/
theorem index_safety (w h x y filterX filterY : Nat) (hw : 1 ≤ w) (hw2 : w < 2 ^ 31)
    (hh : 1 ≤ h) (hh2 : h < 2 ^ 31) (hx : x < w) (hy : y < h) (hfx : filterX < filterWidth)
    (hfy : filterY < filterHeight) :
    ∃ imageX imageY : Int,
      umod (uadd (uadd (usub x (filterWidth / 2)) filterX) w) w ≠ none ∧
      umod (uadd (uadd (usub y (filterHeight / 2)) filterY) h) h ≠ none ∧
      imageCoord x filterWidth filterX w = some imageX ∧
      imageCoord y filterHeight filterY h = some imageY ∧
      0 ≤ imageX ∧ imageX < (w : Int) ∧ 0 ≤ imageY ∧ imageY < (h : Int) ∧
      imageIndex imageX imageY w < w * h ∧
      uadd (umul y w) x < w * h ∧
      ∀ m : Mem, m.image.length = w * h → m.result.length = w * h →
        (∀ a, (filterStep m w h x y filterY filterX a).isSome = true) ∧
        (pixelBody w h x y m).isSome = true := by
  have d : Dims w h := ⟨hw, hh, hw2, hh2⟩
  have hcx := wrapCoord_lt x filterX w hw
  have hcy := wrapCoord_lt y filterY h hh
  have hwr : uadd (umul y w) x = y * w + x := by
    have h1 : y * w < 2 ^ 31 * 2 ^ 31 := Nat.mul_lt_mul'' (hy.trans hh2) hw2
    unfold uadd umul
    omega
  refine ⟨((wrapCoord x filterX w : Nat) : Int), ((wrapCoord y filterY h : Nat) : Int),
    ?_, ?_, imageCoord_eq x filterX w hw hw2 hx hfx, imageCoord_eq y filterY h hh hh2 hy hfy,
    by omega, by omega, by omega, by omega, ?_, ?_, ?_⟩
  · unfold umod
    rw [if_neg (by omega)]
    exact Option.some_ne_none _
  · unfold umod
    rw [if_neg (by omega)]
    exact Option.some_ne_none _
  · rw [imageIndex_eq _ _ w h hw2 hh2 hcx hcy]
    exact index_lt _ _ w h hcx hcy
  · rw [hwr]
    exact index_lt x y w h hx hy
  · intro m hi hr
    constructor
    · intro a
      rw [filterStep_eq m w h x y filterY filterX a d hi hx hy hfy hfx]
      rfl
    · rw [pixelBody_eq w h x y m d hi hr hx hy]
      rfl

theorem index_safety_witness :
    ∃ imageX imageY : Int,
      umod (uadd (uadd (usub 0 (filterWidth / 2)) 0) 3) 3 ≠ none ∧
      umod (uadd (uadd (usub 2 (filterHeight / 2)) 2) 3) 3 ≠ none ∧
      imageCoord 0 filterWidth 0 3 = some imageX ∧
      imageCoord 2 filterHeight 2 3 = some imageY ∧
      0 ≤ imageX ∧ imageX < ((3 : Nat) : Int) ∧ 0 ≤ imageY ∧ imageY < ((3 : Nat) : Int) ∧
      imageIndex imageX imageY 3 < 3 * 3 ∧
      uadd (umul 2 3) 0 < 3 * 3 ∧
      ∀ m : Mem, m.image.length = 3 * 3 → m.result.length = 3 * 3 →
        (∀ a, (filterStep m 3 3 0 2 2 0 a).isSome = true) ∧
        (pixelBody 3 3 0 2 m).isSome = true :=
  index_safety 3 3 0 2 0 2 (by decide) (by decide) (by decide) (by decide) (by decide)
    (by decide) (by decide) (by decide)

/-- Claim C9, worker frame: for a worker parameter with `start + size ≤ h` on an addressable
buffer (`w * h < 2 ^ 64`), a run of `function` that returns leaves the source buffer and the
size of the destination unchanged and changes the destination only at indices `y * w + x`
with `start ≤ y < start + size` and `x < w`; and for `1 ≤ w, h < 2 ^ 31` on buffers of
`w * h` pixels the run does return. -/
theorem worker_frame (p : Pthreads.parameter) (m : Mem) (hse : p.start + p.size ≤ p.h)
    (haddr : p.w * p.h < 2 ^ 64) :
    (∀ m', Pthreads.function p m = some m' →
      m'.image = m.image ∧ m'.result.length = m.result.length ∧
      ∀ idx, (¬ ∃ y x, p.start ≤ y ∧ y < p.start + p.size ∧ x < p.w ∧ idx = y * p.w + x) →
        m'.result[idx]? = m.result[idx]?) ∧
    (1 ≤ p.w → p.w < 2 ^ 31 → 1 ≤ p.h → p.h < 2 ^ 31 → m.image.length = p.w * p.h →
      m.result.length = p.w * p.h → ∃ m', Pthreads.function p m = some m') := by
  refine ⟨fun m' hf => function_frame p m m' hse haddr hf, ?_⟩
  intro h1 h2 h3 h4 hi hr
  obtain ⟨m', e, _⟩ := @function_paint m.image p.w p.h m.result (fun _ _ => False) m
    ⟨h1, h3, h2, h4⟩ hi hr ⟨rfl, rfl, fun _ _ => ⟨fun hf => hf.elim, fun _ => rfl⟩⟩
    p.start p.size hse
  exact ⟨m', e⟩

theorem worker_frame_witness :
    ∃ m', Pthreads.function { w := 3, h := 3, start := 1, size := 1 }
        { image := cornerImage, result := List.replicate 9 black } = some m' ∧
      m'.image = cornerImage ∧ m'.result[0]? = some black := by
  have key := worker_frame { w := 3, h := 3, start := 1, size := 1 }
    { image := cornerImage, result := List.replicate 9 black } (by decide) (by decide)
  obtain ⟨m', hm'⟩ := key.2 (by decide) (by decide) (by decide) (by decide) (by decide)
    (by decide)
  obtain ⟨h1, _, h3⟩ := key.1 m' hm'
  refine ⟨m', hm', h1, ?_⟩
  rw [h3 0 (by rintro ⟨y, x, hy1, _, _, hidx⟩; simp only at hy1 hidx; omega)]
  decide

/-- Claim C10, round trip: for a pixel buffer of dimensions `w x h` with `w, h ≥ 1` (a block
of `3 * w * h < 2 ^ 64` bytes), `writeImage` writes the header `P6`, newline, `w`, space,
`h`, newline, `255`, newline followed by the `3 * w * h` raw bytes, and `readImage` accepts
this file and returns the same width, the same height and the same pixels, whatever the
values of the pixel bytes. -/
theorem write_read_roundtrip (image : List PPMPixel) (w h : Nat) (hw : 1 ≤ w) (hh : 1 ≤ h)
    (hlen : image.length = w * h) (hsz : 3 * w * h < 2 ^ 64) :
    writeImage image w h = .ok (header w h ++ pixelBytes image) ∧
    header w h
      = [80, 54, 10] ++ printDecimal w ++ [32] ++ printDecimal h ++ [10] ++ [50, 53, 53, 10] ∧
    (pixelBytes image).length = 3 * w * h ∧
    readImage (header w h ++ pixelBytes image)
      = .ok { width := w, height := h, pixels := image } := by
  have hwh : w ≤ w * h := Nat.le_mul_of_pos_right w hh
  have hwh3 : 3 * w * h = 3 * (w * h) := Nat.mul_assoc 3 w h
  have hbytes : (pixelBytes image).length = 3 * w * h := by
    rw [pixelBytes_length, hlen, hwh3]
  have hm : umul 3 w = 3 * w := by
    unfold umul
    omega
  have h255 : printDecimal RGB_COMPONENT_COLOR = [50, 53, 53] := by
    unfold printDecimal RGB_COMPONENT_COLOR
    norm_num
    decide
  refine ⟨?_, ?_, hbytes, ?_⟩
  · unfold writeImage
    rw [hm, hbytes, if_neg (Nat.lt_irrefl _), ← hbytes, List.take_length]
  · unfold header
    rw [h255]
    simp only [List.append_assoc, List.cons_append, List.nil_append]
  · rw [readImage_header w h (pixelBytes image) hw hh hsz hbytes, bytesPixels_pixelBytes]

theorem write_read_roundtrip_witness :
    readImage (header 2 1 ++ pixelBytes [{ r := 35, g := 10, b := 48 }, { r := 57, g := 0, b := 255 }])
      = .ok { width := 2, height := 1,
              pixels := [{ r := 35, g := 10, b := 48 }, { r := 57, g := 0, b := 255 }] } :=
  (write_read_roundtrip [{ r := 35, g := 10, b := 48 }, { r := 57, g := 0, b := 255 }] 2 1
    (by decide) (by decide) (by decide) (by decide)).2.2.2

/-- Claim C11 as amended, channel-depth rejection: for a file whose header is well formed (the
magic line, comment lines, two decimal dimensions that `unsigned long` holds, separated by
white space) and whose maximum value field is a decimal integer that `int` holds, `readImage`
ends with the fatal error when the field is not 255; it returns an image, hence reads pixel
data, only when the field is exactly 255. -/
theorem channel_depth_rejection (cs : List (List UChar)) (w h : Nat) (sep1 sep2 : List UChar)
    (neg : Bool) (v : Nat) (c : UChar) (t : List UChar)
    (hcs : ∀ l ∈ cs, (10 : UChar) ∉ l) (hw : w < 2 ^ 64) (hh : h < 2 ^ 64)
    (h1 : IsSeparator sep1) (h2 : IsSeparator sep2) (hc : isDigit c = false)
    (hv : v ≤ if neg then 2 ^ 31 else 2 ^ 31 - 1) :
    (maxValue neg v ≠ 255 →
      readImage (ppmFile cs w h sep1 sep2 neg v (c :: t)) = .error .fatal) ∧
    (∀ img, readImage (ppmFile cs w h sep1 sep2 neg v (c :: t)) = .ok img →
      maxValue neg v = 255) := by
  have key : maxValue neg v ≠ 255 →
      readImage (ppmFile cs w h sep1 sep2 neg v (c :: t)) = .error .fatal := by
    intro hne
    unfold ppmFile
    rw [readImage_dims cs w h sep1 sep2 _ hcs hw hh h1 h2]
    exact readBody_field w h sep2 neg v c t h2 hc hv hne
  refine ⟨key, fun img himg => ?_⟩
  by_contra hne
  rw [key hne] at himg
  cases himg

theorem channel_depth_rejection_witness :
    readImage (ppmFile [[65, 66]] 1 1 [32] [10] false 254 (10 :: [1, 2, 3])) = .error .fatal :=
  (channel_depth_rejection [[65, 66]] 1 1 [32] [10] false 254 10 [1, 2, 3] (by decide)
    (by norm_num) (by norm_num)
    ⟨by decide, fun b hb => by rw [List.mem_singleton] at hb; rw [hb]; rfl⟩
    ⟨by decide, fun b hb => by rw [List.mem_singleton] at hb; rw [hb]; rfl⟩ (by decide)
    (by decide)).1 (by decide)

/-- Claim C11 as stated fails for a field that `int` cannot hold: on the file `P6`, `1 1`,
`4294967551` the conversion `%d` overflows, which is undefined and not the fatal error (the
C library of the platform stores the low 32 bits, which are 255). -/
theorem channel_depth_overflow :
    readImage [80, 54, 10, 49, 32, 49, 10, 52, 50, 57, 52, 57, 54, 55, 53, 53, 49, 10, 1, 2, 3]
      = .error .undefined ∧
    readImage [80, 54, 10, 49, 32, 49, 10, 52, 50, 57, 52, 57, 54, 55, 53, 53, 49, 10, 1, 2, 3]
      ≠ .error .fatal := by
  constructor
  · rfl
  · intro h
    cases h

/-- Claim C12 as amended, comment skipping: a line beginning with `#` inserted directly after
the magic line does not change the result of `readImage`, whatever follows; in particular
on the file written by `writeImage` with such a line inserted the same width, height and
pixels are returned. -/
theorem comment_after_magic (c rest : List UChar) (hc : (10 : UChar) ∉ c) :
    readImage ([80, 54, 10] ++ (35 :: (c ++ 10 :: rest))) = readImage ([80, 54, 10] ++ rest) ∧
    ∀ (image : List PPMPixel) (w h : Nat), 1 ≤ w → 1 ≤ h → image.length = w * h →
      3 * w * h < 2 ^ 64 →
      readImage ([80, 54, 10] ++ (35 :: (c ++ 10 ::
        ((header w h ++ pixelBytes image).drop 3))))
        = .ok { width := w, height := h, pixels := image } := by
  have hline : ∀ Y : List UChar, fgets 15 ([80, 54, 10] ++ Y) = ([80, 54, 10], Y) := by
    intro Y
    simp [fgets]
  have key : ∀ Y : List UChar,
      readImage ([80, 54, 10] ++ (35 :: (c ++ 10 :: Y))) = readImage ([80, 54, 10] ++ Y) := by
    intro Y
    unfold readImage
    simp only [hline, skipComments_line c hc]
  refine ⟨key rest, fun image w h hw hh hlen hsz => ?_⟩
  have hbytes : (pixelBytes image).length = 3 * w * h := by
    rw [pixelBytes_length, hlen, Nat.mul_assoc]
  have hsplit : [80, 54, 10] ++ (header w h ++ pixelBytes image).drop 3
      = header w h ++ pixelBytes image := by
    unfold header
    simp only [List.append_assoc, List.cons_append, List.nil_append, List.drop_succ_cons,
      List.drop_zero]
  rw [key, hsplit, readImage_header w h (pixelBytes image) hw hh hsz hbytes,
    bytesPixels_pixelBytes]

theorem comment_after_magic_witness :
    readImage ([80, 54, 10] ++ (35 :: ([72, 105] ++ 10 :: [49, 32, 49, 10, 50, 53, 53, 10, 1, 2, 3])))
      = readImage ([80, 54, 10] ++ [49, 32, 49, 10, 50, 53, 53, 10, 1, 2, 3]) :=
  (comment_after_magic [72, 105] [49, 32, 49, 10, 50, 53, 53, 10, 1, 2, 3] (by decide)).1

/-- Claim C12 as stated fails at the two other places: on the file `P6`, `1 1`, `255` with the
pixel `(1,2,3)`, a line `#` between the dimensions and the maximum value makes `readImage`
end with the fatal error, and a line `#` after the maximum value is read as pixel data, so
that the pixel returned is `(35,10,1)`. -/
theorem comment_elsewhere_changes_result :
    readImage [80, 54, 10, 49, 32, 49, 10, 50, 53, 53, 10, 1, 2, 3]
      = .ok { width := 1, height := 1, pixels := [{ r := 1, g := 2, b := 3 }] } ∧
    readImage [80, 54, 10, 49, 32, 49, 10, 35, 10, 50, 53, 53, 10, 1, 2, 3]
      = .error .fatal ∧
    readImage [80, 54, 10, 49, 32, 49, 10, 50, 53, 53, 10, 35, 10, 1, 2, 3]
      = .ok { width := 1, height := 1, pixels := [{ r := 35, g := 10, b := 1 }] } :=
  ⟨rfl, rfl, rfl⟩

/-- Claim C14, partition shape: for `h < 2 ^ 31` and `N ≥ 1` workers, `work` is `h / N`; worker
`i` with `i + 1 < N` gets `start = i * (h / N)` and `size = h / N`, so it owns exactly the
rows `[i * (h / N), i * (h / N) + h / N)`; the last worker gets `start = (N - 1) * (h / N)`
and `size = h - start = h / N + h mod N`, so it owns exactly `[(N - 1) * (h / N), h)`; when
`h < N` every worker but the last has the empty range at 0 and the last has all `h` rows. -/
theorem partition_shape (N w h : Nat) (hN : 1 ≤ N) (hh : h < 2 ^ 31) :
    Pthreads.workOf N h = some ((h / N : Nat) : Int) ∧
    (∀ i, i + 1 < N →
      Pthreads.mkParameter N w h ((h / N : Nat) : Int) i
        = some { w := w, h := h, start := i * (h / N), size := h / N } ∧
      uadd (i * (h / N)) (h / N) = i * (h / N) + h / N ∧
      ∀ y, owns { w := w, h := h, start := i * (h / N), size := h / N } y
        ↔ (i * (h / N) ≤ y ∧ y < i * (h / N) + h / N)) ∧
    (Pthreads.mkParameter N w h ((h / N : Nat) : Int) (N - 1)
        = some { w := w, h := h, start := (N - 1) * (h / N), size := h - (N - 1) * (h / N) } ∧
      uadd ((N - 1) * (h / N)) (h - (N - 1) * (h / N)) = h ∧
      (N - 1) * (h / N) ≤ h ∧
      h - (N - 1) * (h / N) = h / N + h % N ∧
      ∀ y, owns { w := w, h := h, start := (N - 1) * (h / N),
                  size := h - (N - 1) * (h / N) } y
        ↔ ((N - 1) * (h / N) ≤ y ∧ y < h)) ∧
    (h < N →
      (∀ i, i + 1 < N →
        Pthreads.mkParameter N w h ((h / N : Nat) : Int) i
          = some { w := w, h := h, start := 0, size := 0 }) ∧
      Pthreads.mkParameter N w h ((h / N : Nat) : Int) (N - 1)
        = some { w := w, h := h, start := 0, size := h }) := by
  have hk : (N - 1) * (h / N) ≤ h :=
    (Nat.mul_le_mul_right _ (Nat.sub_le N 1)).trans (Nat.mul_div_le h N)
  have hsplit : h - (N - 1) * (h / N) = h / N + h % N := by
    have h1 : N * (h / N) + h % N = h := Nat.div_add_mod h N
    have h2 : N * (h / N) = (N - 1) * (h / N) + h / N := by
      have : N = (N - 1) + 1 := by omega
      nth_rewrite 1 [this]
      rw [Nat.add_mul, Nat.one_mul]
    omega
  have hk0 := Nat.zero_le (h / N)
  refine ⟨workOf_eq N h hN hh, ?_, ⟨?_, ?_, hk, hsplit, ?_⟩, ?_⟩
  · intro i hi
    have hle : (i + 1) * (h / N) ≤ h :=
      (Nat.mul_le_mul_right _ (by omega : i + 1 ≤ N)).trans (Nat.mul_div_le h N)
    rw [Nat.add_mul, Nat.one_mul] at hle
    have hk0 := Nat.zero_le (h / N)
    refine ⟨?_, ?_, fun y => Iff.rfl⟩
    · rw [mkParameter_eq N w h i hh (by omega), if_neg (by omega)]
    · unfold uadd
      omega
  · rw [mkParameter_eq N w h (N - 1) hh (by omega), if_pos rfl]
  · unfold uadd
    omega
  · intro y
    unfold owns
    simp only
    omega
  · intro hlt
    have h0 : h / N = 0 := Nat.div_eq_of_lt hlt
    constructor
    · intro i hi
      rw [mkParameter_eq N w h i hh (by omega), if_neg (by omega), h0, Nat.mul_zero]
    · rw [mkParameter_eq N w h (N - 1) hh (by omega), if_pos rfl, h0, Nat.mul_zero,
        Nat.sub_zero]

theorem partition_shape_witness :
    Pthreads.mkParameter 4 5 10 ((10 / 4 : Nat) : Int) (4 - 1)
      = some { w := 5, h := 10, start := (4 - 1) * (10 / 4), size := 10 - (4 - 1) * (10 / 4) } ∧
    10 - (4 - 1) * (10 / 4) = 10 / 4 + 10 % 4 :=
  ⟨(partition_shape 4 5 10 (by decide) (by decide)).2.2.1.1,
   (partition_shape 4 5 10 (by decide) (by decide)).2.2.1.2.2.2.1⟩

/-- Claim C15 as amended, order independence of workers: for `1 ≤ w, h < 2 ^ 31` and `N ≥ 1`,
the creation loop builds `N` workers, and running their bodies one after another in the order
of any permutation, from any initial content of the destination buffer, returns the same
final destination buffer, which is also the one the parallel `apply_filters` returns. -/
theorem worker_order_independence (N w h : Nat) (image fresh0 : List PPMPixel) (hN : 1 ≤ N)
    (hw : 1 ≤ w) (hw2 : w < 2 ^ 31) (hh : 1 ≤ h) (hh2 : h < 2 ^ 31)
    (hi : image.length = w * h) (hf0 : fresh0.length = w * h) :
    ∃ ps out, Pthreads.workers N w h = some ps ∧ ps.length = N ∧
      Pthreads.apply_filters N image w h fresh0 = some out ∧
      ∀ (qs : List Pthreads.parameter) (fresh : List PPMPixel), qs.Perm ps →
        fresh.length = w * h →
        (Pthreads.runWorkers qs { image := image, result := fresh }).map Mem.result
          = some out := by
  have d : Dims w h := ⟨hw, hh, hw2, hh2⟩
  have hk : (N - 1) * (h / N) ≤ h :=
    (Nat.mul_le_mul_right _ (Nat.sub_le N 1)).trans (Nat.mul_div_le h N)
  refine ⟨(List.range' 0 N).map (blockOf N w h), filtered image w h, workers_eq N w h hN hh2,
    by rw [List.length_map, List.length_range'], parallel_eq N image w h fresh0 hN d hi hf0, ?_⟩
  intro qs fresh hperm hf
  have hmem : ∀ q, q ∈ qs ↔ ∃ i, i < N ∧ q = blockOf N w h i := by
    intro q
    rw [hperm.mem_iff, List.mem_map]
    constructor
    · rintro ⟨i, hi', rfl⟩
      rw [List.mem_range'_1] at hi'
      exact ⟨i, by omega, rfl⟩
    · rintro ⟨i, hi', rfl⟩
      exact ⟨i, by rw [List.mem_range'_1]; omega, rfl⟩
  obtain ⟨m', hm', hP⟩ := runWorkers_paint d hi hf qs (fun _ _ => False)
    { image := image, result := fresh }
    (fun q hq => by
      obtain ⟨i, hi', rfl⟩ := (hmem q).mp hq
      exact ⟨rfl, rfl, blockOf_le N w h i hi'⟩)
    (Painted.init image w h fresh)
  rw [hm', Option.map_some', hP.full hf (fun x y _ hy => by
    obtain ⟨i, hi', h1, h2⟩ := range_exists N (h / N) h y hN hk hy
    exact Or.inr ⟨blockOf N w h i, (hmem _).mpr ⟨i, hi', rfl⟩, h1, h2⟩)]

theorem worker_order_independence_witness :
    ∃ ps out, Pthreads.workers 4 3 3 = some ps ∧ ps.length = 4 ∧
      Pthreads.apply_filters 4 cornerImage 3 3 (List.replicate 9 black) = some out ∧
      ∀ (qs : List Pthreads.parameter) (fresh : List PPMPixel), qs.Perm ps →
        fresh.length = 3 * 3 →
        (Pthreads.runWorkers qs { image := cornerImage, result := fresh }).map Mem.result
          = some out :=
  worker_order_independence 4 3 3 cornerImage (List.replicate 9 black) (by decide) (by decide)
    (by decide) (by decide) (by decide) (by decide) (by decide)

/-- Claim C15 as stated fails for a wide image: for width `2 ^ 31 + 1`, height `1` and four
workers, the last worker owns the row, `imageX` does not fit `int` at `x = 2 ^ 31`, and the
run of the workers in creation order has no defined final buffer. -/
theorem worker_order_wide_undefined :
    Pthreads.workers 4 (2 ^ 31 + 1) 1
      = some [{ w := 2 ^ 31 + 1, h := 1, start := 0, size := 0 },
              { w := 2 ^ 31 + 1, h := 1, start := 0, size := 0 },
              { w := 2 ^ 31 + 1, h := 1, start := 0, size := 0 },
              { w := 2 ^ 31 + 1, h := 1, start := 0, size := 1 }] ∧
    Pthreads.runWorkers
        [{ w := 2 ^ 31 + 1, h := 1, start := 0, size := 0 },
         { w := 2 ^ 31 + 1, h := 1, start := 0, size := 0 },
         { w := 2 ^ 31 + 1, h := 1, start := 0, size := 0 },
         { w := 2 ^ 31 + 1, h := 1, start := 0, size := 1 }]
        { image := List.replicate (2 ^ 31 + 1) { r := 10, g := 20, b := 30 }
          result := List.replicate (2 ^ 31 + 1) { r := 0, g := 0, b := 0 } } = none := by
  constructor
  · rw [workers_eq 4 (2 ^ 31 + 1) 1 (by decide) (by decide)]
    rfl
  · rw [Pthreads.runWorkers, function_empty, Option.some_bind, Pthreads.runWorkers,
      function_empty, Option.some_bind, Pthreads.runWorkers, function_empty, Option.some_bind,
      Pthreads.runWorkers]
    have hf := function_wide_none (List.replicate (2 ^ 31 + 1) { r := 10, g := 20, b := 30 })
      (List.length_replicate _ _)
      { image := List.replicate (2 ^ 31 + 1) { r := 10, g := 20, b := 30 }
        result := List.replicate (2 ^ 31 + 1) { r := 0, g := 0, b := 0 } } rfl
    rw [hf]
    rfl

/-- Claim C16, exact integer accumulation: for `1 ≤ w, h < 2 ^ 31`, buffers of `w * h` pixels and
a destination pixel `x < w`, `y < h`, the three accumulated values are integers in
`[-2040, 2040]`; the cast `(int)` of each (after the multiplication by the factor) is defined
and gives that integer, the clamp stores `min 255 (max 0 sum)`, and the per-pixel body
writes exactly these three bytes at `y * w + x`. -/
theorem exact_integer_accumulation (m : Mem) (w h x y : Nat) (hw : 1 ≤ w) (hw2 : w < 2 ^ 31)
    (hh : 1 ≤ h) (hh2 : h < 2 ^ 31) (hi : m.image.length = w * h)
    (hr : m.result.length = w * h) (hx : x < w) (hy : y < h) :
    ∃ red green blue : Int,
      accumulate m w h x y
        = some { red := (red : ℚ), green := (green : ℚ), blue := (blue : ℚ) } ∧
      (-2040 ≤ red ∧ red ≤ 2040) ∧ (-2040 ≤ green ∧ green ≤ 2040) ∧
      (-2040 ≤ blue ∧ blue ≤ 2040) ∧
      doubleToInt (laplacian_factor * (red : ℚ)) = some red ∧
      doubleToInt (laplacian_factor * (green : ℚ)) = some green ∧
      doubleToInt (laplacian_factor * (blue : ℚ)) = some blue ∧
      clampChannel (laplacian_factor * (red : ℚ))
        = some (Fin.ofNat (min 255 (max 0 red)).toNat) ∧
      clampChannel (laplacian_factor * (green : ℚ))
        = some (Fin.ofNat (min 255 (max 0 green)).toNat) ∧
      clampChannel (laplacian_factor * (blue : ℚ))
        = some (Fin.ofNat (min 255 (max 0 blue)).toNat) ∧
      pixelBody w h x y m = some
        { image := m.image
          result := m.result.set (y * w + x)
            { r := Fin.ofNat (min 255 (max 0 red)).toNat
              g := Fin.ofNat (min 255 (max 0 green)).toNat
              b := Fin.ofNat (min 255 (max 0 blue)).toNat } } := by
  have d : Dims w h := ⟨hw, hh, hw2, hh2⟩
  have br := weightedSum_tight PPMPixel.r m.image w h x y
  have bg := weightedSum_tight PPMPixel.g m.image w h x y
  have bb := weightedSum_tight PPMPixel.b m.image w h x y
  refine ⟨weightedSum PPMPixel.r m.image w h x y, weightedSum PPMPixel.g m.image w h x y,
    weightedSum PPMPixel.b m.image w h x y, accumulate_eq m w h x y d hi hx hy, br, bg, bb,
    doubleToInt_intCast _ (by omega) (by omega), doubleToInt_intCast _ (by omega) (by omega),
    doubleToInt_intCast _ (by omega) (by omega), ?_, ?_, ?_, ?_⟩
  · rw [clampChannel_intCast _ (by omega) (by omega), clampInt_eq_min_max]
  · rw [clampChannel_intCast _ (by omega) (by omega), clampInt_eq_min_max]
  · rw [clampChannel_intCast _ (by omega) (by omega), clampInt_eq_min_max]
  · rw [pixelBody_eq w h x y m d hi hr hx hy]
    unfold filteredPixel
    rw [clampInt_eq_min_max, clampInt_eq_min_max, clampInt_eq_min_max]

theorem exact_integer_accumulation_witness :
    ∃ red green blue : Int,
      accumulate { image := cornerImage, result := List.replicate 9 black } 3 3 0 0
        = some { red := (red : ℚ), green := (green : ℚ), blue := (blue : ℚ) } ∧
      (-2040 ≤ red ∧ red ≤ 2040) ∧ (-2040 ≤ green ∧ green ≤ 2040) ∧
      (-2040 ≤ blue ∧ blue ≤ 2040) :=
  (exact_integer_accumulation { image := cornerImage, result := List.replicate 9 black } 3 3 0 0
    (by decide) (by decide) (by decide) (by decide) (by decide) (by decide) (by decide)
    (by decide)).imp fun _ hr => hr.imp fun _ hg => hg.imp fun _ hb =>
      ⟨hb.1, hb.2.1, hb.2.2.1, hb.2.2.2.1⟩

/-- Claim C17 as amended, translation equivariance on the torus: for `1 ≤ w, h < 2 ^ 31` and a
shift `(a, b)`, where the shifted image has at `(x, y)` the pixel `((x + a) mod w,
(y + b) mod h)` of the image, the serial `apply_filters` of the shifted image returns the
shifted result of the serial `apply_filters` of the image, pixel for pixel. -/
theorem translation_equivariance (img fresh fresh' : List PPMPixel) (w h : Nat) (a b : Int)
    (hw : 1 ≤ w) (hw2 : w < 2 ^ 31) (hh : 1 ≤ h) (hh2 : h < 2 ^ 31)
    (hi : img.length = w * h) (hf : fresh.length = w * h) (hf' : fresh'.length = w * h) :
    (∀ x y, x < w → y < h →
      (shiftImage img w h a b)[y * w + x]?
        = img[((((y : Int) + b) % (h : Int)).toNat) * w + ((((x : Int) + a) % (w : Int)).toNat)]?) ∧
    ∃ out, Serial.apply_filters img w h fresh = some out ∧
      Serial.apply_filters (shiftImage img w h a b) w h fresh' = some (shiftImage out w h a b) ∧
      ∀ x y, x < w → y < h →
        (shiftImage out w h a b)[y * w + x]?
          = out[((((y : Int) + b) % (h : Int)).toNat) * w
              + ((((x : Int) + a) % (w : Int)).toNat)]? := by
  have d : Dims w h := ⟨hw, hh, hw2, hh2⟩
  have hget : ∀ (l : List PPMPixel), l.length = w * h → ∀ x y, x < w → y < h →
      (shiftImage l w h a b)[y * w + x]?
        = l[((((y : Int) + b) % (h : Int)).toNat) * w
            + ((((x : Int) + a) % (w : Int)).toNat)]? := by
    intro l hl x y hx hy
    have hsx := shiftCoord_lt x a w hw
    have hsy := shiftCoord_lt y b h hh
    have hidx := index_lt _ _ w h hsx hsy
    rw [shiftImage_getElem? l w h a b x y hx hy, List.getD_eq_getElem?_getD]
    unfold shiftCoord at hidx ⊢
    rw [List.getElem?_eq_getElem (by omega)]
    rfl
  refine ⟨hget img hi, filtered img w h, serial_eq img w h fresh d hi hf, ?_, ?_⟩
  · rw [serial_eq (shiftImage img w h a b) w h fresh' d (shiftImage_length img w h a b) hf',
      filtered_shift img w h a b hw hh]
  · refine hget (filtered img w h) ?_
    unfold filtered
    rw [List.length_map, List.length_range]

theorem translation_equivariance_witness :
    ∃ out, Serial.apply_filters cornerImage 3 3 (List.replicate 9 black) = some out ∧
      Serial.apply_filters (shiftImage cornerImage 3 3 1 (-1)) 3 3 (List.replicate 9 black)
        = some (shiftImage out 3 3 1 (-1)) :=
  (translation_equivariance cornerImage (List.replicate 9 black) (List.replicate 9 black) 3 3 1
    (-1) (by decide) (by decide) (by decide) (by decide) (by decide) (by decide)
    (by decide)).2.imp fun _ ho => ⟨ho.1, ho.2.1⟩

/-- Claim C17 as stated fails for a wide image: for width `2 ^ 31 + 1` and height `1` neither
the image nor the image shifted by `(1, 0)` has a defined filter result, so the two sides of
the equation do not exist. -/
theorem translation_wide_undefined :
    Serial.apply_filters (List.replicate (2 ^ 31 + 1) { r := 7, g := 7, b := 7 })
      (2 ^ 31 + 1) 1 (List.replicate (2 ^ 31 + 1) { r := 0, g := 0, b := 0 }) = none ∧
    Serial.apply_filters
      (shiftImage (List.replicate (2 ^ 31 + 1) { r := 7, g := 7, b := 7 }) (2 ^ 31 + 1) 1 1 0)
      (2 ^ 31 + 1) 1 (List.replicate (2 ^ 31 + 1) { r := 0, g := 0, b := 0 }) = none :=
  ⟨serial_wide_none _ _ (List.length_replicate _ _),
   serial_wide_none _ _ ((shiftImage_length _ _ _ _ _).trans (Nat.mul_one _))⟩

/-- Claim C18 as amended, channel independence: for `1 ≤ w, h < 2 ^ 31` and two source images
of `w * h` pixels that agree on one channel at every pixel, both engines return on each
image, and the two results agree on that channel at every pixel, whatever the other two
channels of the sources and the freshly allocated blocks hold. -/
theorem channel_independence (chan : PPMPixel → UChar)
    (hchan : chan = PPMPixel.r ∨ chan = PPMPixel.g ∨ chan = PPMPixel.b) (N w h : Nat)
    (img1 img2 fresh1 fresh2 : List PPMPixel) (hN : 1 ≤ N) (hw : 1 ≤ w) (hw2 : w < 2 ^ 31)
    (hh : 1 ≤ h) (hh2 : h < 2 ^ 31) (h1 : img1.length = w * h) (h2 : img2.length = w * h)
    (hf1 : fresh1.length = w * h) (hf2 : fresh2.length = w * h)
    (hag : ∀ idx, idx < w * h → (img1[idx]?).map chan = (img2[idx]?).map chan) :
    ∃ out1 out2,
      Serial.apply_filters img1 w h fresh1 = some out1 ∧
      Serial.apply_filters img2 w h fresh2 = some out2 ∧
      Pthreads.apply_filters N img1 w h fresh1 = some out1 ∧
      Pthreads.apply_filters N img2 w h fresh2 = some out2 ∧
      out1.length = w * h ∧ out2.length = w * h ∧
      out1.map chan = out2.map chan ∧
      ∀ idx : Nat, (out1[idx]?).map chan = (out2[idx]?).map chan := by
  have d : Dims w h := ⟨hw, hh, hw2, hh2⟩
  have hl : ∀ img : List PPMPixel, (filtered img w h).length = w * h := by
    intro img
    unfold filtered
    rw [List.length_map, List.length_range]
  have hm := filtered_agree chan hchan img1 img2 w h d h1 h2 hag
  refine ⟨filtered img1 w h, filtered img2 w h, serial_eq img1 w h fresh1 d h1 hf1,
    serial_eq img2 w h fresh2 d h2 hf2, parallel_eq N img1 w h fresh1 hN d h1 hf1,
    parallel_eq N img2 w h fresh2 hN d h2 hf2, hl img1, hl img2, hm, fun idx => ?_⟩
  rw [← List.getElem?_map, ← List.getElem?_map, hm]

theorem channel_independence_witness :
    ∃ out1 out2,
      Serial.apply_filters cornerImage 3 3 (List.replicate 9 black) = some out1 ∧
      Serial.apply_filters
        ({ r := 255, g := 1, b := 2 } :: List.replicate 8 { r := 0, g := 3, b := 4 }) 3 3
        (List.replicate 9 black) = some out2 ∧
      out1.map PPMPixel.r = out2.map PPMPixel.r :=
  (channel_independence PPMPixel.r (Or.inl rfl) 4 3 3 cornerImage
    ({ r := 255, g := 1, b := 2 } :: List.replicate 8 { r := 0, g := 3, b := 4 })
    (List.replicate 9 black) (List.replicate 9 black) (by decide) (by decide) (by decide)
    (by decide) (by decide) (by decide) (by decide) (by decide) (by decide)
    (by decide)).imp fun _ h1 => h1.imp fun _ h2 => ⟨h2.1, h2.2.1, h2.2.2.2.2.2.2.1⟩

/-- Claim C18 as stated fails for wide images: two images of width `2 ^ 31 + 1` and height `1`
that agree on the red channel have no defined filter result, so there are no outputs to
agree. -/
theorem channel_wide_undefined :
    (∀ idx, idx < (2 ^ 31 + 1) * 1 →
      ((List.replicate (2 ^ 31 + 1) ({ r := 1, g := 2, b := 3 } : PPMPixel))[idx]?).map PPMPixel.r
        = ((List.replicate (2 ^ 31 + 1) ({ r := 1, g := 7, b := 9 } : PPMPixel))[idx]?).map
            PPMPixel.r) ∧
    Serial.apply_filters (List.replicate (2 ^ 31 + 1) { r := 1, g := 2, b := 3 })
      (2 ^ 31 + 1) 1 (List.replicate (2 ^ 31 + 1) { r := 0, g := 0, b := 0 }) = none ∧
    Serial.apply_filters (List.replicate (2 ^ 31 + 1) { r := 1, g := 7, b := 9 })
      (2 ^ 31 + 1) 1 (List.replicate (2 ^ 31 + 1) { r := 0, g := 0, b := 0 }) = none := by
  refine ⟨fun idx hidx => ?_, serial_wide_none _ _ (List.length_replicate _ _),
    serial_wide_none _ _ (List.length_replicate _ _)⟩
  rw [List.getElem?_replicate, List.getElem?_replicate]
  split <;> rfl

end ImageFilters
